import Mathlib

set_option maxHeartbeats 1000000

/- Shallow embedding of the CHIP-8 interpreter core (src/unnamed/part_000, the
   cpu implementation file of the repository).  The header cpu.h is not part of
   src/; following the spec (section 3), a C `byte` is an 8-bit unsigned
   integer and a C `word` a 16-bit unsigned integer.  Machine integers are
   modelled as `Nat`, with an explicit `% 256` on every store into a byte-typed
   location (`setV`, `setMem`, `setScreen`, the timer fields) and an explicit
   `% 65536` where an `int` expression is stored into a word-typed location
   (the fetched opcode, the FX1E and FX29 stores into the address register).
   The key-press and speaker function pointers are modelled with `Option`
   (a null pointer is `none`); the speaker calls emit no state change and are
   dropped.  The C library rand() sequence is modelled as an external stream
   `rnd` consumed at cursor `rndIdx`; the file-scope accumulator
   `global_delta` becomes the field `gdelta`. -/

/-- Pointwise update of a function, modelling an array store. -/
def setFun (f : Nat → Nat) (k val : Nat) : Nat → Nat := fun a => if a = k then val else f a

/-- The machine state, struct machine_t of the source. -/
@[ext] structure Machine where
  mem : Nat → Nat
  v : Nat → Nat
  i : Nat
  pc : Nat
  stack : Nat → Nat
  sp : Nat
  dt : Nat
  st : Nat
  screen : Nat → Nat
  wait_key : Option Nat
  keydown : Option (Nat → Bool)
  rnd : Nat → Nat
  rndIdx : Nat
  gdelta : Nat

/-- OPCODE_NNN(opcode) = (opcode & 0xFFF). -/
def opNNN (opcode : Nat) : Nat := opcode % 4096
/-- OPCODE_KK(opcode) = (opcode & 0xFF). -/
def opKK (opcode : Nat) : Nat := opcode % 256
/-- OPCODE_N(opcode) = (opcode & 0xF). -/
def opN (opcode : Nat) : Nat := opcode % 16
/-- OPCODE_X(opcode) = ((opcode >> 8) & 0xF). -/
def opX (opcode : Nat) : Nat := (opcode / 256) % 16
/-- OPCODE_Y(opcode) = ((opcode >> 4) & 0xF). -/
def opY (opcode : Nat) : Nat := (opcode / 16) % 16
/-- OPCODE_P(opcode) = (opcode >> 12). -/
def opP (opcode : Nat) : Nat := opcode / 4096

/-- Store into a register; the byte assignment truncates mod 256. -/
def setV (cpu : Machine) (r val : Nat) : Machine := { cpu with v := setFun cpu.v r (val % 256) }

/-- Store into memory; the byte assignment truncates mod 256. -/
def setMem (cpu : Machine) (a val : Nat) : Machine := { cpu with mem := setFun cpu.mem a (val % 256) }

/-- Store into the framebuffer; the byte assignment truncates mod 256. -/
def setScreen (cpu : Machine) (p val : Nat) : Machine :=
  { cpu with screen := setFun cpu.screen p (val % 256) }

/-- nibble_0: 00E0 clears the 2048-byte screen, 00EE returns from subroutine
    (guarded by sp > 0, silent no-op on underflow). -/
def nibble_0 (cpu : Machine) (opcode : Nat) : Machine :=
  if opcode = 0x00E0 then
    { cpu with screen := fun p => if p < 2048 then 0 else cpu.screen p }
  else if opcode = 0x00EE then
    if 0 < cpu.sp then { cpu with sp := cpu.sp - 1, pc := cpu.stack (cpu.sp - 1) } else cpu
  else cpu

/-- nibble_1: 1NNN jump. -/
def nibble_1 (cpu : Machine) (opcode : Nat) : Machine := { cpu with pc := opNNN opcode }

/-- nibble_2: 2NNN call, guarded by sp < 16 (silent no-op on overflow). -/
def nibble_2 (cpu : Machine) (opcode : Nat) : Machine :=
  if cpu.sp < 16 then
    { cpu with stack := setFun cpu.stack cpu.sp cpu.pc, sp := cpu.sp + 1, pc := opNNN opcode }
  else cpu

/-- nibble_3: 3XKK skip if V[X] == KK. -/
def nibble_3 (cpu : Machine) (opcode : Nat) : Machine :=
  if cpu.v (opX opcode) = opKK opcode then { cpu with pc := (cpu.pc + 2) % 4096 } else cpu

/-- nibble_4: 4XKK skip if V[X] != KK. -/
def nibble_4 (cpu : Machine) (opcode : Nat) : Machine :=
  if cpu.v (opX opcode) ≠ opKK opcode then { cpu with pc := (cpu.pc + 2) % 4096 } else cpu

/-- nibble_5: 5XY0 skip if V[X] == V[Y]. -/
def nibble_5 (cpu : Machine) (opcode : Nat) : Machine :=
  if cpu.v (opX opcode) = cpu.v (opY opcode) then { cpu with pc := (cpu.pc + 2) % 4096 } else cpu

/-- nibble_6: 6XKK load immediate. -/
def nibble_6 (cpu : Machine) (opcode : Nat) : Machine := setV cpu (opX opcode) (opKK opcode)

/-- nibble_7: 7XKK add immediate (byte wraps, no flag). -/
def nibble_7 (cpu : Machine) (opcode : Nat) : Machine :=
  setV cpu (opX opcode) (cpu.v (opX opcode) + opKK opcode)

/-- nibble_8: the ALU family, sub-dispatched on the low nibble.  Each flag
    write happens before the result write, and the result write re-reads the
    registers (visible when X or Y is 0xF).  Byte subtraction is modelled as
    (a + 256 - b) % 256, exact for byte-valued operands. -/
def nibble_8 (cpu : Machine) (opcode : Nat) : Machine :=
  let x := opX opcode
  let y := opY opcode
  match opN opcode with
  | 0 => setV cpu x (cpu.v y)
  | 1 => setV cpu x (cpu.v x ||| cpu.v y)
  | 2 => setV cpu x (cpu.v x &&& cpu.v y)
  | 3 => setV cpu x (cpu.v x ^^^ cpu.v y)
  | 4 =>
    let cpu := setV cpu 15 (if (cpu.v x + cpu.v y) % 256 < cpu.v x then 1 else 0)
    setV cpu x (cpu.v x + cpu.v y)
  | 5 =>
    let cpu := setV cpu 15 (if cpu.v y < cpu.v x then 1 else 0)
    setV cpu x (cpu.v x + 256 - cpu.v y)
  | 6 =>
    let cpu := setV cpu 15 (cpu.v x &&& 1)
    setV cpu x (cpu.v x / 2)
  | 7 =>
    let cpu := setV cpu 15 (if cpu.v x < cpu.v y then 1 else 0)
    setV cpu x (cpu.v y + 256 - cpu.v x)
  | 0xE =>
    let cpu := setV cpu 15 (if cpu.v x &&& 0x80 ≠ 0 then 1 else 0)
    setV cpu x (cpu.v x * 2)
  | _ => cpu

/-- nibble_9: 9XY0 skip if V[X] != V[Y]. -/
def nibble_9 (cpu : Machine) (opcode : Nat) : Machine :=
  if cpu.v (opX opcode) ≠ cpu.v (opY opcode) then { cpu with pc := (cpu.pc + 2) % 4096 } else cpu

/-- nibble_A: ANNN set I. -/
def nibble_A (cpu : Machine) (opcode : Nat) : Machine := { cpu with i := opNNN opcode }

/-- nibble_B: BNNN jump to (V[0] + NNN) & 0xFFF. -/
def nibble_B (cpu : Machine) (opcode : Nat) : Machine :=
  { cpu with pc := (cpu.v 0 + opNNN opcode) % 4096 }

/-- nibble_C: CXKK random byte masked with KK; rand() modelled as the external
    stream rnd consumed at rndIdx. -/
def nibble_C (cpu : Machine) (opcode : Nat) : Machine :=
  let cpu := setV cpu (opX opcode) (cpu.rnd cpu.rndIdx &&& opKK opcode)
  { cpu with rndIdx := cpu.rndIdx + 1 }

/-- One sprite pixel: (sprite & (1 << (7-i))) != 0, as 0 or 1. -/
def spritePixel (sprite ib : Nat) : Nat := if sprite &&& (1 <<< (7 - ib)) ≠ 0 then 1 else 0

/-- Body of the inner loop of nibble_D for column ib of row j: coordinates are
    computed from the current registers, then V[15] accumulates the collision
    bit, then the framebuffer byte is xored. -/
def drawBit (x y j sprite : Nat) (cpu : Machine) (ib : Nat) : Machine :=
  let px := (cpu.v x + ib) % 64
  let py := (cpu.v y + j) % 32
  let pos := 64 * py + px
  let pixel := spritePixel sprite ib
  let cpu := setV cpu 15 (cpu.v 15 ||| (cpu.screen pos &&& pixel))
  setScreen cpu pos (cpu.screen pos ^^^ pixel)

/-- Body of the outer loop of nibble_D for row j: the sprite byte is read once
    from mem[i + j], then the eight columns are drawn. -/
def drawRow (x y : Nat) (cpu : Machine) (j : Nat) : Machine :=
  let sprite := cpu.mem (cpu.i + j)
  (List.range 8).foldl (drawBit x y j sprite) cpu

/-- nibble_D: DXYN sprite draw.  V[15] is zeroed first, then N rows are drawn. -/
def nibble_D (cpu : Machine) (opcode : Nat) : Machine :=
  let x := opX opcode
  let y := opY opcode
  let cpu := setV cpu 15 0
  (List.range (opN opcode)).foldl (drawRow x y) cpu

/-- nibble_E: EX9E / EXA1 key skips.  The C reads V[X] into a char and masks
    with 0xF before calling the capability; the low four bits equal
    V[X] % 16 regardless of char signedness.  A null keydown pointer means no
    skip. -/
def nibble_E (cpu : Machine) (opcode : Nat) : Machine :=
  let key := cpu.v (opX opcode)
  if opKK opcode = 0x9E then
    match cpu.keydown with
    | some kd => if kd (key % 16) then { cpu with pc := (cpu.pc + 2) % 4096 } else cpu
    | none => cpu
  else if opKK opcode = 0xA1 then
    match cpu.keydown with
    | some kd => if !kd (key % 16) then { cpu with pc := (cpu.pc + 2) % 4096 } else cpu
    | none => cpu
  else cpu

/-- nibble_F: the timer/transfer family, sub-dispatched on the low byte.
    FX33 writes the digits at i+2, i+1, i (source order); FX55 and FX65 loop
    reg = 0 .. X inclusive. -/
def nibble_F (cpu : Machine) (opcode : Nat) : Machine :=
  match opKK opcode with
  | 0x07 => setV cpu (opX opcode) cpu.dt
  | 0x0A => { cpu with wait_key := some (opX opcode) }
  | 0x15 => { cpu with dt := cpu.v (opX opcode) % 256 }
  | 0x18 => { cpu with st := cpu.v (opX opcode) % 256 }
  | 0x1E => { cpu with i := (cpu.i + cpu.v (opX opcode)) % 65536 }
  | 0x29 => { cpu with i := (0x50 + (cpu.v (opX opcode) % 16) * 5) % 65536 }
  | 0x33 =>
    let cpu := setMem cpu (cpu.i + 2) (cpu.v (opX opcode) % 10)
    let cpu := setMem cpu (cpu.i + 1) (cpu.v (opX opcode) / 10 % 10)
    setMem cpu cpu.i (cpu.v (opX opcode) / 100)
  | 0x55 => (List.range (opX opcode + 1)).foldl (fun c reg => setMem c (c.i + reg) (c.v reg)) cpu
  | 0x65 => (List.range (opX opcode + 1)).foldl (fun c reg => setV c reg (c.mem (c.i + reg))) cpu
  | _ => cpu

/-- The 16-way handler table, keyed by the top nibble.  For a 16-bit opcode
    the top nibble is below 16, so the final catch-all is unreachable. -/
def nibbles (cpu : Machine) (opcode : Nat) : Machine :=
  match opP opcode with
  | 0 => nibble_0 cpu opcode
  | 1 => nibble_1 cpu opcode
  | 2 => nibble_2 cpu opcode
  | 3 => nibble_3 cpu opcode
  | 4 => nibble_4 cpu opcode
  | 5 => nibble_5 cpu opcode
  | 6 => nibble_6 cpu opcode
  | 7 => nibble_7 cpu opcode
  | 8 => nibble_8 cpu opcode
  | 9 => nibble_9 cpu opcode
  | 10 => nibble_A cpu opcode
  | 11 => nibble_B cpu opcode
  | 12 => nibble_C cpu opcode
  | 13 => nibble_D cpu opcode
  | 14 => nibble_E cpu opcode
  | 15 => nibble_F cpu opcode
  | _ => cpu

/-- The fetched big-endian word (mem[pc] << 8) | mem[pc + 1]; the store into
    the word-typed local truncates mod 65536, and the second byte index pc + 1
    is not masked, as in the source. -/
def fetch_opcode (cpu : Machine) : Nat := ((cpu.mem cpu.pc) <<< 8 ||| cpu.mem (cpu.pc + 1)) % 65536

/-- The fetch / advance / dispatch tail of step_machine: fetch at pc, advance
    pc by 2 wrapped mod 0x1000 before dispatch, then run the handler. -/
def fetch_execute (cpu : Machine) : Machine :=
  let opcode := fetch_opcode cpu
  let cpu := { cpu with pc := (cpu.pc + 2) % 4096 }
  nibbles cpu opcode

/-- The key-wait poll of step_machine: scan keys 0..15 in ascending order; on
    the first key reported down, write its value into V[wait_key] and clear
    the wait state; otherwise leave the machine unchanged. -/
def poll_wait (cpu : Machine) (r : Nat) (kd : Nat → Bool) : Machine :=
  match (List.range 16).find? kd with
  | some k => { setV cpu r k with wait_key := none }
  | none => cpu

/-- step_machine: if waiting for a key and the keydown capability is present,
    poll; if still waiting afterwards, return without fetching, otherwise fall
    through to the fetch (the source falls through in the same call that
    observed the key).  With no keydown capability the wait block is skipped
    entirely. -/
def step_machine (cpu : Machine) : Machine :=
  match cpu.wait_key, cpu.keydown with
  | some r, some kd =>
    let cpu := poll_wait cpu r kd
    match cpu.wait_key with
    | some _ => cpu
    | none => fetch_execute cpu
  | _, _ => fetch_execute cpu

/-- The while loop of update_time: while global_delta > 1000/60 (= 16 by C
    integer division), subtract 16 and decrement each positive timer.  The
    speaker signalling is external output with no effect on the machine state
    and is dropped.  Returns (global_delta, dt, st). -/
def timer_loop (gd dt st : Nat) : Nat × Nat × Nat :=
  if h : 16 < gd then
    timer_loop (gd - 16) (if 0 < dt then dt - 1 else dt) (if 0 < st then st - 1 else st)
  else (gd, dt, st)
termination_by gd
decreasing_by omega

/-- update_time: add the elapsed delta to the accumulator, then run the tick
    loop. -/
def update_time (cpu : Machine) (delta : Nat) : Machine :=
  let r := timer_loop (cpu.gdelta + delta) cpu.dt cpu.st
  { cpu with gdelta := r.1, dt := r.2.1, st := r.2.2 }

/-- The font bitmaps copied to 0x50 by init_machine. -/
def hexcodes : List Nat :=
  [0xF0, 0x90, 0x90, 0x90, 0xF0,
   0x20, 0x60, 0x20, 0x20, 0x70,
   0xF0, 0x10, 0xF0, 0x80, 0xF0,
   0xF0, 0x10, 0xF0, 0x10, 0xF0,
   0x90, 0x90, 0xF0, 0x10, 0x10,
   0xF0, 0x80, 0xF0, 0x10, 0xF0,
   0xF0, 0x80, 0xF0, 0x90, 0xF0,
   0xF0, 0x10, 0x20, 0x40, 0x40,
   0xF0, 0x90, 0xF0, 0x90, 0xF0,
   0xF0, 0x90, 0xF0, 0x10, 0xF0,
   0xF0, 0x90, 0xF0, 0x90, 0x90,
   0xE0, 0x90, 0xE0, 0x90, 0xE0,
   0xF0, 0x80, 0x80, 0x80, 0xF0,
   0xE0, 0x90, 0x90, 0x90, 0xE0,
   0xF0, 0x80, 0xF0, 0x80, 0xF0,
   0xF0, 0x80, 0xF0, 0x80, 0x80]

/-- init_machine: zero the whole struct (so wait_key = -1 becomes none and the
    function pointers become none), copy the 80 font bytes to 0x50..0x9F, set
    pc = 0x200 and zero the tick accumulator. -/
def init_machine : Machine :=
  { mem := fun a => if 0x50 ≤ a ∧ a < 0xA0 then hexcodes.getD (a - 0x50) 0 else 0,
    v := fun _ => 0, i := 0, pc := 0x200, stack := fun _ => 0, sp := 0,
    dt := 0, st := 0, screen := fun _ => 0, wait_key := none, keydown := none,
    rnd := fun _ => 0, rndIdx := 0, gdelta := 0 }

/-- load_rom of src/src/chip8.c: the ROM bytes are read into memory starting
    at 0x200. -/
def load_program (cpu : Machine) (rom : List Nat) : Machine :=
  { cpu with mem := fun a =>
      if 0x200 ≤ a ∧ a < 0x200 + rom.length then rom.getD (a - 0x200) 0 % 256 else cpu.mem a }

/-- The reachable machine states: an initialized machine with the host
    callbacks installed and a ROM of at most 3584 bytes loaded (main of
    src/src/chip8.c), closed under Step and Timer-tick calls. -/
inductive Reachable : Machine → Prop where
  | boot : ∀ (rom : List Nat) (kd : Nat → Bool) (rs : Nat → Nat), rom.length ≤ 3584 →
      Reachable (load_program { init_machine with keydown := some kd, rnd := rs } rom)
  | step : ∀ s, Reachable s → Reachable (step_machine s)
  | tick : ∀ s d, Reachable s → Reachable (update_time s d)

/-- The skip condition of the four skip families, read from the state the
    handler sees. -/
def skip_cond (cpu : Machine) (opcode : Nat) : Bool :=
  if opP opcode = 3 then cpu.v (opX opcode) == opKK opcode
  else if opP opcode = 4 then cpu.v (opX opcode) != opKK opcode
  else if opP opcode = 5 then cpu.v (opX opcode) == cpu.v (opY opcode)
  else if opP opcode = 9 then cpu.v (opX opcode) != cpu.v (opY opcode)
  else false

/-- The memory indices used by the address-register-driven accesses of one
    opcode: the sprite fetch mem[i + j] for j < N of nibble_D, the BCD store
    at i+2, i+1, i of FX33, and the bulk transfers mem[i + reg] for
    reg = 0 .. X of FX55 / FX65, exactly as computed in the source loops. -/
def addr_driven_accesses (cpu : Machine) (opcode : Nat) : List Nat :=
  if opP opcode = 13 then (List.range (opN opcode)).map (fun j => cpu.i + j)
  else if opP opcode = 15 ∧ opKK opcode = 0x33 then [cpu.i + 2, cpu.i + 1, cpu.i]
  else if opP opcode = 15 ∧ (opKK opcode = 0x55 ∨ opKK opcode = 0x65) then
    (List.range (opX opcode + 1)).map (fun reg => cpu.i + reg)
  else []

/-- Abstract draw transition on a (screen, flag) pair for one (position,
    pixel) item, matching the two byte stores of drawBit. -/
def drawStep (sf : (Nat → Nat) × Nat) (pp : Nat × Nat) : (Nat → Nat) × Nat :=
  (setFun sf.1 pp.1 ((sf.1 pp.1 ^^^ pp.2) % 256), (sf.2 ||| (sf.1 pp.1 &&& pp.2)) % 256)

/-- Abstract draw over a list of (position, pixel) items. -/
def drawAbs (l : List (Nat × Nat)) (sf : (Nat → Nat) × Nat) : (Nat → Nat) × Nat :=
  l.foldl drawStep sf

/-- The (position, pixel) items of sprite row j for coordinates vx, vy. -/
def rowPix (vx vy i0 : Nat) (mem : Nat → Nat) (j : Nat) : List (Nat × Nat) :=
  (List.range 8).map (fun ib =>
    (64 * ((vy + j) % 32) + ((vx + ib) % 64), spritePixel (mem (i0 + j)) ib))

/-- The (position, pixel) items of the first n sprite rows. -/
def pixList (vx vy i0 : Nat) (mem : Nat → Nat) : Nat → List (Nat × Nat)
  | 0 => []
  | n + 1 => pixList vx vy i0 mem n ++ rowPix vx vy i0 mem n

/-- An all-zero machine used to build concrete test states. -/
def M0 : Machine :=
  { mem := fun _ => 0, v := fun _ => 0, i := 0, pc := 0x200, stack := fun _ => 0, sp := 0,
    dt := 0, st := 0, screen := fun _ => 0, wait_key := none, keydown := none,
    rnd := fun _ => 0, rndIdx := 0, gdelta := 0 }

/-- Waiting machine whose capability reports every key down. -/
def mC1cex : Machine := { M0 with wait_key := some 5, keydown := some (fun _ => true) }

/-- Waiting machine whose capability reports no key down. -/
def mC1quiet : Machine := { M0 with wait_key := some 5, keydown := some (fun _ => false) }

/-- Waiting machine whose capability reports exactly key 3 down. -/
def mC1key3 : Machine := { M0 with wait_key := some 5, keydown := some (fun k => k == 3) }

/-- Machine with V[15] = 200 and V[0] = 100, for opcode 8F04. -/
def mC2cexA : Machine := { M0 with v := fun r => if r = 15 then 200 else if r = 0 then 100 else 0 }

/-- Machine with V[0] = 10 and V[15] = 20, for opcode 80F4. -/
def mC2cexB : Machine := { M0 with v := fun r => if r = 0 then 10 else if r = 15 then 20 else 0 }

/-- Machine with V[1] = 200 and V[2] = 100, for opcode 8124. -/
def mC2w : Machine := { M0 with v := fun r => if r = 1 then 200 else if r = 2 then 100 else 0 }

/-- Machine with both timers active and a zero tick accumulator. -/
def mC3cex : Machine := { M0 with dt := 255, st := 7 }

/-- An initialized machine with host callbacks installed, ready for a ROM. -/
def bootM : Machine := { init_machine with keydown := some (fun _ => false), rnd := fun _ => 0 }

/-- ROM: AFFF (I := 0xFFF), 6001 (V0 := 1), F01E (I += V0). -/
def romC4 : List Nat := [0xAF, 0xFF, 0x60, 0x01, 0xF0, 0x1E]

/-- The machine after running the three instructions of romC4. -/
def mC4s : Machine := step_machine (step_machine (step_machine (load_program bootM romC4)))

/-- Machine with I = 0xFFF and V[0] = 1, about to run FX1E. -/
def mC4cex : Machine := { M0 with i := 0xFFF, v := fun r => if r = 0 then 1 else 0 }

/-- ROM: AFFF (I := 0xFFF), F533 (BCD store of V5 at I). -/
def romC5 : List Nat := [0xAF, 0xFF, 0xF5, 0x33]

/-- The machine after running the first instruction of romC5: I = 0xFFF and
    the next fetch is the BCD store F533. -/
def mC5s : Machine := step_machine (load_program bootM romC5)

/-- Machine with I = 0x100. -/
def mC5w : Machine := { M0 with i := 0x100 }

/-- Machine whose next instruction is 3000 (skip if V0 == 0, which holds). -/
def mC6w : Machine := { M0 with mem := fun a => if a = 0x200 then 0x30 else 0 }

/-- Machine with a full call stack. -/
def mC7full : Machine := { M0 with sp := 16 }

/-- Machine with a sprite byte 0x80 at I = 0x300 and a clear screen, drawn
    with opcode D011. -/
def mC8a : Machine := { M0 with i := 0x300, mem := fun a => if a = 0x300 then 0x80 else 0 }

/-- Machine for opcode DF02 (X = 0xF): two sprite rows 0x80 at I = 0x300 and
    one set pixel at screen position 0. -/
def mC8b : Machine :=
  { M0 with
    i := 0x300
    mem := fun a => if a = 0x300 then 0x80 else if a = 0x301 then 0x80 else 0
    screen := fun p => if p = 0 then 1 else 0 }

/-- Machine with pc in range and sp = 1 but a garbage stack entry 0x5000,
    whose next instruction is 00EE. -/
def mC9cex : Machine :=
  { M0 with
    sp := 1
    stack := fun k => if k = 0 then 0x5000 else 0
    mem := fun a => if a = 0x201 then 0xEE else 0 }

/-- Waiting machine with no keydown capability whose next instruction is F00A. -/
def mC10cex : Machine :=
  { M0 with
    wait_key := some 5
    mem := fun a => if a = 0x200 then 0xF0 else if a = 0x201 then 0x0A else 0 }

/-- Waiting machine with no keydown capability and all-zero memory. -/
def mC10w : Machine := { M0 with wait_key := some 2 }

/-- The state invariant of claim C9, extended with the spec's own stack-entry
    invariant: the program counter is inside the 4096-byte space, the stack
    pointer is within [0, 16], and every stack slot holds a valid former
    program counter. -/
def MachInv (s : Machine) : Prop :=
  s.pc ≤ 0xFFF ∧ s.sp ≤ 16 ∧ ∀ k, s.stack k ≤ 0xFFF

/-- Reading an updated array cell at the written index. -/
theorem setFun_self (f : Nat → Nat) (k val : Nat) : setFun f k val k = val := by
  simp [setFun]

/-- Reading an updated array cell at another index. -/
theorem setFun_ne (f : Nat → Nat) (k val a : Nat) (h : a ≠ k) : setFun f k val a = f a := by
  simp [setFun, h]

@[simp] theorem setV_mem (c : Machine) (r x : Nat) : (setV c r x).mem = c.mem := rfl
@[simp] theorem setV_i (c : Machine) (r x : Nat) : (setV c r x).i = c.i := rfl
@[simp] theorem setV_pc (c : Machine) (r x : Nat) : (setV c r x).pc = c.pc := rfl
@[simp] theorem setV_stack (c : Machine) (r x : Nat) : (setV c r x).stack = c.stack := rfl
@[simp] theorem setV_sp (c : Machine) (r x : Nat) : (setV c r x).sp = c.sp := rfl
@[simp] theorem setV_dt (c : Machine) (r x : Nat) : (setV c r x).dt = c.dt := rfl
@[simp] theorem setV_st (c : Machine) (r x : Nat) : (setV c r x).st = c.st := rfl
@[simp] theorem setV_screen (c : Machine) (r x : Nat) : (setV c r x).screen = c.screen := rfl
@[simp] theorem setV_wk (c : Machine) (r x : Nat) : (setV c r x).wait_key = c.wait_key := rfl
@[simp] theorem setV_kd (c : Machine) (r x : Nat) : (setV c r x).keydown = c.keydown := rfl
@[simp] theorem setV_rnd (c : Machine) (r x : Nat) : (setV c r x).rnd = c.rnd := rfl
@[simp] theorem setV_rndIdx (c : Machine) (r x : Nat) : (setV c r x).rndIdx = c.rndIdx := rfl
@[simp] theorem setV_gdelta (c : Machine) (r x : Nat) : (setV c r x).gdelta = c.gdelta := rfl
theorem setV_v (c : Machine) (r x : Nat) : (setV c r x).v = setFun c.v r (x % 256) := rfl

@[simp] theorem setMem_v (c : Machine) (a x : Nat) : (setMem c a x).v = c.v := rfl
@[simp] theorem setMem_i (c : Machine) (a x : Nat) : (setMem c a x).i = c.i := rfl
@[simp] theorem setMem_pc (c : Machine) (a x : Nat) : (setMem c a x).pc = c.pc := rfl
@[simp] theorem setMem_stack (c : Machine) (a x : Nat) : (setMem c a x).stack = c.stack := rfl
@[simp] theorem setMem_sp (c : Machine) (a x : Nat) : (setMem c a x).sp = c.sp := rfl
@[simp] theorem setMem_dt (c : Machine) (a x : Nat) : (setMem c a x).dt = c.dt := rfl
@[simp] theorem setMem_st (c : Machine) (a x : Nat) : (setMem c a x).st = c.st := rfl
@[simp] theorem setMem_screen (c : Machine) (a x : Nat) : (setMem c a x).screen = c.screen := rfl
@[simp] theorem setMem_wk (c : Machine) (a x : Nat) : (setMem c a x).wait_key = c.wait_key := rfl
@[simp] theorem setMem_kd (c : Machine) (a x : Nat) : (setMem c a x).keydown = c.keydown := rfl
@[simp] theorem setMem_rnd (c : Machine) (a x : Nat) : (setMem c a x).rnd = c.rnd := rfl
@[simp] theorem setMem_rndIdx (c : Machine) (a x : Nat) : (setMem c a x).rndIdx = c.rndIdx := rfl
@[simp] theorem setMem_gdelta (c : Machine) (a x : Nat) : (setMem c a x).gdelta = c.gdelta := rfl
theorem setMem_mem (c : Machine) (a x : Nat) : (setMem c a x).mem = setFun c.mem a (x % 256) := rfl

@[simp] theorem setScreen_v (c : Machine) (p x : Nat) : (setScreen c p x).v = c.v := rfl
@[simp] theorem setScreen_i (c : Machine) (p x : Nat) : (setScreen c p x).i = c.i := rfl
@[simp] theorem setScreen_pc (c : Machine) (p x : Nat) : (setScreen c p x).pc = c.pc := rfl
@[simp] theorem setScreen_stack (c : Machine) (p x : Nat) : (setScreen c p x).stack = c.stack := rfl
@[simp] theorem setScreen_sp (c : Machine) (p x : Nat) : (setScreen c p x).sp = c.sp := rfl
@[simp] theorem setScreen_dt (c : Machine) (p x : Nat) : (setScreen c p x).dt = c.dt := rfl
@[simp] theorem setScreen_st (c : Machine) (p x : Nat) : (setScreen c p x).st = c.st := rfl
@[simp] theorem setScreen_mem (c : Machine) (p x : Nat) : (setScreen c p x).mem = c.mem := rfl
@[simp] theorem setScreen_wk (c : Machine) (p x : Nat) : (setScreen c p x).wait_key = c.wait_key := rfl
@[simp] theorem setScreen_kd (c : Machine) (p x : Nat) : (setScreen c p x).keydown = c.keydown := rfl
@[simp] theorem setScreen_rnd (c : Machine) (p x : Nat) : (setScreen c p x).rnd = c.rnd := rfl
@[simp] theorem setScreen_rndIdx (c : Machine) (p x : Nat) : (setScreen c p x).rndIdx = c.rndIdx := rfl
@[simp] theorem setScreen_gdelta (c : Machine) (p x : Nat) : (setScreen c p x).gdelta = c.gdelta := rfl
theorem setScreen_screen (c : Machine) (p x : Nat) :
    (setScreen c p x).screen = setFun c.screen p (x % 256) := rfl

theorem nibbles_eq_0 (c : Machine) (op : Nat) (h : opP op = 0) : nibbles c op = nibble_0 c op := by
  unfold nibbles; rw [h]
theorem nibbles_eq_1 (c : Machine) (op : Nat) (h : opP op = 1) : nibbles c op = nibble_1 c op := by
  unfold nibbles; rw [h]
theorem nibbles_eq_2 (c : Machine) (op : Nat) (h : opP op = 2) : nibbles c op = nibble_2 c op := by
  unfold nibbles; rw [h]
theorem nibbles_eq_3 (c : Machine) (op : Nat) (h : opP op = 3) : nibbles c op = nibble_3 c op := by
  unfold nibbles; rw [h]
theorem nibbles_eq_4 (c : Machine) (op : Nat) (h : opP op = 4) : nibbles c op = nibble_4 c op := by
  unfold nibbles; rw [h]
theorem nibbles_eq_5 (c : Machine) (op : Nat) (h : opP op = 5) : nibbles c op = nibble_5 c op := by
  unfold nibbles; rw [h]
theorem nibbles_eq_6 (c : Machine) (op : Nat) (h : opP op = 6) : nibbles c op = nibble_6 c op := by
  unfold nibbles; rw [h]
theorem nibbles_eq_7 (c : Machine) (op : Nat) (h : opP op = 7) : nibbles c op = nibble_7 c op := by
  unfold nibbles; rw [h]
theorem nibbles_eq_8 (c : Machine) (op : Nat) (h : opP op = 8) : nibbles c op = nibble_8 c op := by
  unfold nibbles; rw [h]
theorem nibbles_eq_9 (c : Machine) (op : Nat) (h : opP op = 9) : nibbles c op = nibble_9 c op := by
  unfold nibbles; rw [h]
theorem nibbles_eq_A (c : Machine) (op : Nat) (h : opP op = 10) : nibbles c op = nibble_A c op := by
  unfold nibbles; rw [h]
theorem nibbles_eq_B (c : Machine) (op : Nat) (h : opP op = 11) : nibbles c op = nibble_B c op := by
  unfold nibbles; rw [h]
theorem nibbles_eq_C (c : Machine) (op : Nat) (h : opP op = 12) : nibbles c op = nibble_C c op := by
  unfold nibbles; rw [h]
theorem nibbles_eq_D (c : Machine) (op : Nat) (h : opP op = 13) : nibbles c op = nibble_D c op := by
  unfold nibbles; rw [h]
theorem nibbles_eq_E (c : Machine) (op : Nat) (h : opP op = 14) : nibbles c op = nibble_E c op := by
  unfold nibbles; rw [h]
theorem nibbles_eq_F (c : Machine) (op : Nat) (h : opP op = 15) : nibbles c op = nibble_F c op := by
  unfold nibbles; rw [h]

/-- A Step call made with no wait state pending reduces to fetch / dispatch. -/
theorem step_not_waiting (s : Machine) (hw : s.wait_key = none) :
    step_machine s = fetch_execute s := by
  unfold step_machine; rw [hw]

/-- Claim C7: executing the 2NNN CALL handler with stack_pointer = 16, or the
    00EE RET handler with stack_pointer = 0, leaves the entire machine state
    unchanged. -/
theorem C7_call_ret_noop (s : Machine) (opcode : Nat) :
    (s.sp = 16 → nibble_2 s opcode = s) ∧ (s.sp = 0 → nibble_0 s 0x00EE = s) := by
  constructor
  · intro h; simp [nibble_2, h]
  · intro h; simp [nibble_0, h]

/-- Claim C7 witness: a call on a full stack and a return on an empty stack,
    at concrete states. -/
theorem C7_call_ret_noop_witness :
    nibble_2 mC7full 0x2ABC = mC7full ∧ nibble_0 M0 0x00EE = M0 :=
  ⟨(C7_call_ret_noop mC7full 0x2ABC).1 rfl, (C7_call_ret_noop M0 0x00EE).2 rfl⟩

/-- Claim C6: from a Running state, a Step call whose fetched opcode belongs
    to the skip families 3, 4, 5, 9 advances the program counter by 4 in total
    (fetch +2, skip +2, each wrapped mod 0x1000) when the skip condition
    holds, and by 2 when it does not. -/
theorem C6_skip_advance (s : Machine) (opcode : Nat)
    (hw : s.wait_key = none)
    (hop : opcode = fetch_opcode s)
    (hfam : opP opcode = 3 ∨ opP opcode = 4 ∨ opP opcode = 5 ∨ opP opcode = 9) :
    (step_machine s).pc = (s.pc + (if skip_cond s opcode then 4 else 2)) % 4096 := by
  rw [step_not_waiting s hw]
  unfold fetch_execute
  rw [← hop]
  rcases hfam with h | h | h | h
  · rw [nibbles_eq_3 _ _ h]
    by_cases hc : s.v (opX opcode) = opKK opcode <;>
      simp [nibble_3, skip_cond, h, hc, beq_iff_eq, bne_iff_ne] <;> omega
  · rw [nibbles_eq_4 _ _ h]
    by_cases hc : s.v (opX opcode) = opKK opcode <;>
      simp [nibble_4, skip_cond, h, hc, beq_iff_eq, bne_iff_ne] <;> omega
  · rw [nibbles_eq_5 _ _ h]
    by_cases hc : s.v (opX opcode) = s.v (opY opcode) <;>
      simp [nibble_5, skip_cond, h, hc, beq_iff_eq, bne_iff_ne] <;> omega
  · rw [nibbles_eq_9 _ _ h]
    by_cases hc : s.v (opX opcode) = s.v (opY opcode) <;>
      simp [nibble_9, skip_cond, h, hc, beq_iff_eq, bne_iff_ne] <;> omega

/-- Claim C6 witness: opcode 3000 at a state where V[0] = 0, so the skip
    condition holds and the program counter moves from 0x200 to 0x204. -/
theorem C6_skip_advance_witness : (step_machine mC6w).pc = 0x204 := by
  have h := C6_skip_advance mC6w 0x3000 (by decide) (by decide) (Or.inl (by decide))
  exact h.trans (by decide)

/-- A projection that every step of a fold leaves unchanged is unchanged by
    the whole fold. -/
theorem foldl_pres {α β : Type _} (g : Machine → β) (f : Machine → α → Machine)
    (hf : ∀ c a, g (f c a) = g c) (l : List α) : ∀ (c : Machine), g (l.foldl f c) = g c := by
  induction l with
  | nil => intro c; rfl
  | cons a t ih => intro c; rw [List.foldl_cons, ih, hf]

/-- A projection untouched by register and framebuffer stores is unchanged by
    one sprite row. -/
theorem drawRow_pres {β : Type _} (g : Machine → β)
    (hgV : ∀ (c : Machine) (r val : Nat), g (setV c r val) = g c)
    (hgS : ∀ (c : Machine) (p val : Nat), g (setScreen c p val) = g c)
    (x y : Nat) (c : Machine) (j : Nat) : g (drawRow x y c j) = g c := by
  unfold drawRow
  exact foldl_pres g _ (fun c' ib => (hgS _ _ _).trans (hgV _ _ _)) _ c

/-- A projection untouched by register and framebuffer stores is unchanged by
    the whole sprite draw. -/
theorem nibble_D_pres {β : Type _} (g : Machine → β)
    (hgV : ∀ (c : Machine) (r val : Nat), g (setV c r val) = g c)
    (hgS : ∀ (c : Machine) (p val : Nat), g (setScreen c p val) = g c)
    (c : Machine) (op : Nat) : g (nibble_D c op) = g c := by
  unfold nibble_D
  rw [foldl_pres g _ (fun c' j => drawRow_pres g hgV hgS _ _ c' j), hgV]

theorem nibble_0_i (c : Machine) (op : Nat) : (nibble_0 c op).i = c.i := by
  unfold nibble_0; split_ifs <;> rfl
theorem nibble_1_i (c : Machine) (op : Nat) : (nibble_1 c op).i = c.i := rfl
theorem nibble_2_i (c : Machine) (op : Nat) : (nibble_2 c op).i = c.i := by
  unfold nibble_2; split <;> rfl
theorem nibble_3_i (c : Machine) (op : Nat) : (nibble_3 c op).i = c.i := by
  unfold nibble_3; split <;> rfl
theorem nibble_4_i (c : Machine) (op : Nat) : (nibble_4 c op).i = c.i := by
  unfold nibble_4; split <;> rfl
theorem nibble_5_i (c : Machine) (op : Nat) : (nibble_5 c op).i = c.i := by
  unfold nibble_5; split <;> rfl
theorem nibble_6_i (c : Machine) (op : Nat) : (nibble_6 c op).i = c.i := rfl
theorem nibble_7_i (c : Machine) (op : Nat) : (nibble_7 c op).i = c.i := rfl
theorem nibble_8_i (c : Machine) (op : Nat) : (nibble_8 c op).i = c.i := by
  unfold nibble_8; repeat' split
  all_goals rfl
theorem nibble_9_i (c : Machine) (op : Nat) : (nibble_9 c op).i = c.i := by
  unfold nibble_9; split <;> rfl
theorem nibble_B_i (c : Machine) (op : Nat) : (nibble_B c op).i = c.i := rfl
theorem nibble_C_i (c : Machine) (op : Nat) : (nibble_C c op).i = c.i := rfl
theorem nibble_D_i (c : Machine) (op : Nat) : (nibble_D c op).i = c.i :=
  nibble_D_pres Machine.i (fun _ _ _ => rfl) (fun _ _ _ => rfl) c op
theorem nibble_E_i (c : Machine) (op : Nat) : (nibble_E c op).i = c.i := by
  unfold nibble_E
  repeat' split
  all_goals simp [apply_ite Machine.i]

/-- nibble_F leaves the address register alone except in the FX1E and FX29
    cases. -/
theorem nibble_F_i_other (c : Machine) (op : Nat)
    (h1 : opKK op ≠ 0x1E) (h2 : opKK op ≠ 0x29) : (nibble_F c op).i = c.i := by
  unfold nibble_F
  split
  all_goals first
    | rfl
    | exact absurd (by assumption) h1
    | exact absurd (by assumption) h2
    | exact foldl_pres Machine.i (fun c' reg => setMem c' (c'.i + reg) (c'.v reg))
        (fun c' a => rfl) _ _
    | exact foldl_pres Machine.i (fun c' reg => setV c' reg (c'.mem (c'.i + reg)))
        (fun c' a => rfl) _ _

theorem nibble_F_i_1E (c : Machine) (op : Nat) (h : opKK op = 0x1E) :
    (nibble_F c op).i = (c.i + c.v (opX op)) % 65536 := by
  unfold nibble_F; rw [h]

theorem nibble_F_i_29 (c : Machine) (op : Nat) (h : opKK op = 0x29) :
    (nibble_F c op).i = (0x50 + (c.v (opX op) % 16) * 5) % 65536 := by
  unfold nibble_F; rw [h]

/-- Claim C4 (amended): from a state with I at most 0xFFF and byte-valued
    registers, every defined opcode except FX1E keeps I at most 0xFFF, and
    FX1E keeps it at most 0xFFF + 0xFF = 0x10FE, which can exceed 0xFFF. -/
theorem C4_address_register_bound (s : Machine) (opcode : Nat)
    (hi : s.i ≤ 0xFFF) (hv : ∀ r, s.v r < 256) :
    (nibbles s opcode).i ≤ 0x10FE ∧
    (¬(opP opcode = 15 ∧ opKK opcode = 0x1E) → (nibbles s opcode).i ≤ 0xFFF) := by
  unfold nibbles
  split
  · simp only [nibble_0_i]; exact ⟨by omega, fun _ => by omega⟩
  · simp only [nibble_1_i]; exact ⟨by omega, fun _ => by omega⟩
  · simp only [nibble_2_i]; exact ⟨by omega, fun _ => by omega⟩
  · simp only [nibble_3_i]; exact ⟨by omega, fun _ => by omega⟩
  · simp only [nibble_4_i]; exact ⟨by omega, fun _ => by omega⟩
  · simp only [nibble_5_i]; exact ⟨by omega, fun _ => by omega⟩
  · simp only [nibble_6_i]; exact ⟨by omega, fun _ => by omega⟩
  · simp only [nibble_7_i]; exact ⟨by omega, fun _ => by omega⟩
  · simp only [nibble_8_i]; exact ⟨by omega, fun _ => by omega⟩
  · simp only [nibble_9_i]; exact ⟨by omega, fun _ => by omega⟩
  · refine ⟨?_, fun _ => ?_⟩ <;> (show opcode % 4096 ≤ _) <;> omega
  · simp only [nibble_B_i]; exact ⟨by omega, fun _ => by omega⟩
  · simp only [nibble_C_i]; exact ⟨by omega, fun _ => by omega⟩
  · simp only [nibble_D_i]; exact ⟨by omega, fun _ => by omega⟩
  · simp only [nibble_E_i]; exact ⟨by omega, fun _ => by omega⟩
  · rename_i hP
    by_cases hkk : opKK opcode = 0x1E
    · have hv1 := hv (opX opcode)
      have hm := Nat.mod_le (s.i + s.v (opX opcode)) 65536
      rw [nibble_F_i_1E s opcode hkk]
      exact ⟨by omega, fun hn => absurd ⟨hP, hkk⟩ hn⟩
    · by_cases h29 : opKK opcode = 0x29
      · have hm := Nat.mod_le (0x50 + (s.v (opX opcode) % 16) * 5) 65536
        rw [nibble_F_i_29 s opcode h29]
        exact ⟨by omega, fun _ => by omega⟩
      · rw [nibble_F_i_other s opcode hkk h29]
        exact ⟨by omega, fun _ => by omega⟩
  · exact ⟨by omega, fun _ => by omega⟩

/-- Claim C4 counterexample: from a reachable initialized machine running the
    program AFFF 6001 F01E, the third Step executes the defined opcode F01E
    from a state with I = 0xFFF and produces I = 0x1000, which is above 0xFFF.
    Also shown directly at the handler level from I = 0xFFF, V0 = 1. -/
theorem C4_fx1e_overflow_cex :
    Reachable mC4s ∧ mC4s.i = 0x1000 ∧ ¬(0x1000 ≤ 0xFFF) ∧
    (nibbles mC4cex 0xF01E).i = 0x1000 := by
  refine ⟨?_, by decide, by decide, by decide⟩
  exact Reachable.step _ (Reachable.step _ (Reachable.step _
    (Reachable.boot romC4 (fun _ => false) (fun _ => 0) (by decide))))

/-- Claim C4 witness: a non-FX1E opcode (6105) from I = 0, and the bounds it
    guarantees. -/
theorem C4_address_register_bound_witness :
    (nibbles M0 0x6105).i ≤ 0x10FE ∧
    (¬(opP 0x6105 = 15 ∧ opKK 0x6105 = 0x1E) → (nibbles M0 0x6105).i ≤ 0xFFF) :=
  C4_address_register_bound M0 0x6105 (by decide) (fun r => by show (0:Nat) < 256; decide)

/-- Reading the flag comparison of 8XY4 as a carry test: for byte operands,
    (a + b) & 0xFF < a exactly when a + b > 255. -/
theorem carry_flag (a b : Nat) (ha : a < 256) (hb : b < 256) :
    (if (a + b) % 256 < a then (1 : Nat) else 0) = if 255 < a + b then 1 else 0 := by
  rcases Nat.lt_or_ge (a + b) 256 with h | h
  · rw [Nat.mod_eq_of_lt h, if_neg (by omega), if_neg (by omega)]
  · have hm : (a + b) % 256 = a + b - 256 := by
      rw [Nat.mod_eq_sub_mod h, Nat.mod_eq_of_lt (by omega)]
    rw [hm, if_pos (by omega), if_pos (by omega)]

theorem ite01_mod (p : Prop) [Decidable p] : ((if p then (1 : Nat) else 0) % 256) = if p then 1 else 0 := by
  split <;> rfl

/-- Claim C2 (amended): for register indices X and Y both different from 0xF
    (X = Y allowed) and byte operand values a, b, opcode 8XY4 sets
    registers[0xF] to 1 exactly when a + b > 255, computed from the
    pre-addition operands, and registers[X] to (a + b) mod 256. -/
theorem C2_add_carry (s : Machine) (opcode : Nat)
    (hp : opP opcode = 8) (hn : opN opcode = 4)
    (hx : opX opcode ≠ 15) (hy : opY opcode ≠ 15)
    (ha : s.v (opX opcode) < 256) (hb : s.v (opY opcode) < 256) :
    (nibbles s opcode).v 15 = (if 255 < s.v (opX opcode) + s.v (opY opcode) then 1 else 0) ∧
    (nibbles s opcode).v (opX opcode) = (s.v (opX opcode) + s.v (opY opcode)) % 256 := by
  rw [nibbles_eq_8 _ _ hp]
  simp only [nibble_8, hn, setV_v]
  rw [setFun_ne _ _ _ _ hx, setFun_ne _ _ _ _ hy]
  constructor
  · rw [setFun_ne _ _ _ _ (Ne.symm hx), setFun_self, ite01_mod]
    exact carry_flag _ _ ha hb
  · rw [setFun_self]

/-- Claim C2 counterexample: with X = 0xF (state mC2cexA, a = 200, b = 100)
    the code leaves 101 in register 0xF, which is neither the carry 1 nor
    (a + b) mod 256 = 44; with Y = 0xF (state mC2cexB, a = 10, b = 20) the
    code leaves 10 in register X instead of (a + b) mod 256 = 30. -/
theorem C2_flag_register_cex :
    (nibbles mC2cexA 0x8F04).v 15 = 101 ∧ (101 : Nat) ≠ 1 ∧ (101 : Nat) ≠ (200 + 100) % 256 ∧
    (nibbles mC2cexB 0x80F4).v 0 = 10 ∧ (10 : Nat) ≠ (10 + 20) % 256 := by
  refine ⟨by decide, by decide, by decide, by decide, by decide⟩

/-- Claim C2 witness: opcode 8124 at a state with V1 = 200, V2 = 100. -/
theorem C2_add_carry_witness :
    (nibbles mC2w 0x8124).v 15 = (if 255 < mC2w.v (opX 0x8124) + mC2w.v (opY 0x8124) then 1 else 0) ∧
    (nibbles mC2w 0x8124).v (opX 0x8124) = (mC2w.v (opX 0x8124) + mC2w.v (opY 0x8124)) % 256 :=
  C2_add_carry mC2w 0x8124 (by decide) (by decide) (by decide) (by decide) (by decide) (by decide)

/-- The tick loop returns unchanged once the accumulator is at most 16 ms. -/
theorem timer_loop_stop (gd dt st : Nat) (h : gd ≤ 16) : timer_loop gd dt st = (gd, dt, st) := by
  unfold timer_loop
  rw [dif_neg (by omega)]

/-- One iteration of the tick loop: above 16 ms, 16 ms are consumed and each
    positive timer is decremented. -/
theorem timer_loop_step (gd dt st : Nat) (h : 16 < gd) :
    timer_loop gd dt st =
      timer_loop (gd - 16) (if 0 < dt then dt - 1 else dt) (if 0 < st then st - 1 else st) := by
  conv_lhs => rw [timer_loop]
  rw [dif_pos h]

/-- Closed form of the tick loop: an accumulator of 16k + c with 1 ≤ c ≤ 16
    performs exactly k ticks and stops at c. -/
theorem timer_loop_closed : ∀ (k c dt st : Nat), 1 ≤ c → c ≤ 16 →
    timer_loop (16 * k + c) dt st = (c, dt - k, st - k) := by
  intro k
  induction k with
  | zero =>
    intro c dt st h1 h2
    rw [show 16 * 0 + c = c by omega, timer_loop_stop c dt st h2]
    norm_num
  | succ k ih =>
    intro c dt st h1 h2
    rw [timer_loop_step _ _ _ (by omega)]
    rw [show 16 * (k + 1) + c - 16 = 16 * k + c by omega]
    rw [show (if 0 < dt then dt - 1 else dt) = dt - 1 by split <;> omega]
    rw [show (if 0 < st then st - 1 else st) = st - 1 by split <;> omega]
    rw [ih c (dt - 1) (st - 1) h1 h2]
    rw [show dt - 1 - k = dt - (k + 1) by omega, show st - 1 - k = st - (k + 1) by omega]

/-- Closed form of update_time: bringing the accumulator to 16k + c with
    1 <= c <= 16 performs exactly k ticks on each timer. -/
theorem update_time_closed (s : Machine) (delta k c : Nat) (h1 : 1 ≤ c) (h2 : c ≤ 16)
    (hsum : s.gdelta + delta = 16 * k + c) :
    (update_time s delta).dt = s.dt - k ∧ (update_time s delta).st = s.st - k ∧
    (update_time s delta).gdelta = c := by
  unfold update_time
  rw [hsum, timer_loop_closed k c s.dt s.st h1 h2]
  exact ⟨rfl, rfl, rfl⟩

/-- Claim C3 (amended): the tick period is the integer quotient 1000/60 = 16
    ms and the loop runs while the accumulator exceeds 16 ms, so a Timer-tick
    call bringing the accumulator to 16k + c (1 ≤ c ≤ 16) performs exactly k
    ticks, decrementing each timer by k clamped at 0 (truncated subtraction
    never goes negative); in particular 1000 ms supplied on a zero accumulator
    performs 62 ticks, not 60. -/
theorem C3_timer_ticks :
    (∀ s : Machine, s.gdelta = 0 →
      (update_time s 1000).dt = s.dt - 62 ∧ (update_time s 1000).st = s.st - 62 ∧
      (update_time s 1000).gdelta = 8) ∧
    (∀ (s : Machine) (delta k c : Nat), 1 ≤ c → c ≤ 16 → s.gdelta + delta = 16 * k + c →
      (update_time s delta).dt = s.dt - k ∧ (update_time s delta).st = s.st - k ∧
      (update_time s delta).gdelta = c) :=
  ⟨fun s h0 => update_time_closed s 1000 62 8 (by omega) (by omega) (by omega),
   fun s delta k c h1 h2 hsum => update_time_closed s delta k c h1 h2 hsum⟩

/-- Claim C3 counterexample: supplying 1000 ms on a zero accumulator with
    delay timer 255 leaves 193 = 255 - 62, not 255 - 60 = 195: the call does
    not decrement active timers by exactly 60 ticks. -/
theorem C3_sixty_ticks_cex :
    (update_time mC3cex 1000).dt = 193 ∧ (193 : Nat) ≠ 255 - 60 := by
  refine ⟨?_, by decide⟩
  have h := (update_time_closed mC3cex 1000 62 8 (by omega) (by omega)
    (by norm_num [mC3cex, M0])).1
  rw [h]
  rfl

/-- Claim C3 witness: the amended theorem applied to the concrete state with
    dt = 255, st = 7 and a zero accumulator. -/
theorem C3_timer_ticks_witness :
    (update_time mC3cex 1000).dt = mC3cex.dt - 62 ∧
    (update_time mC3cex 1000).st = mC3cex.st - 62 ∧
    (update_time mC3cex 1000).gdelta = 8 :=
  C3_timer_ticks.1 mC3cex rfl

/-- List.range scans ascending, so find? returns the least key satisfying the
    test. -/
theorem find?_range_least : ∀ (n : Nat) (p : Nat → Bool) (k : Nat), k < n → p k = true →
    (∀ j, j < k → p j = false) → (List.range n).find? p = some k := by
  intro n
  induction n with
  | zero => intro p k hk; omega
  | succ n ih =>
    intro p k hk hp hmin
    rw [List.range_succ, List.find?_append]
    rcases Nat.lt_or_ge k n with h | h
    · rw [ih p k h hp hmin]; rfl
    · have hkn : k = n := by omega
      subst hkn
      have hnone : (List.range k).find? p = none := by
        rw [List.find?_eq_none]
        intro x hx
        simp only [List.mem_range] at hx
        simp [hmin x hx]
      rw [hnone]
      simp [List.find?, hp]

/-- Claim C1 (amended): while Waiting(R) with a key capability installed, a
    Step call with no key down leaves the machine completely unchanged; the
    Step call during which a key is first reported down writes the lowest down
    key into register R, leaves the wait state, and then immediately falls
    through to fetch and execute an instruction in that same call. -/
theorem C1_key_wait (s : Machine) (r : Nat) (kd : Nat → Bool)
    (hw : s.wait_key = some r) (hk : s.keydown = some kd) :
    ((∀ k, k < 16 → kd k = false) → step_machine s = s) ∧
    (∀ k, k < 16 → kd k = true → (∀ j, j < k → kd j = false) →
      step_machine s = fetch_execute { s with v := setFun s.v r k, wait_key := none }) := by
  have hstep : step_machine s =
      (match (poll_wait s r kd).wait_key with
       | some _ => poll_wait s r kd
       | none => fetch_execute (poll_wait s r kd)) := by
    unfold step_machine
    rw [hw, hk]
  constructor
  · intro hnone
    have hfind : (List.range 16).find? kd = none := by
      rw [List.find?_eq_none]
      intro x hx
      simp only [List.mem_range] at hx
      simp [hnone x hx]
    have hpoll : poll_wait s r kd = s := by
      unfold poll_wait
      rw [hfind]
    rw [hstep, hpoll, hw]
  · intro k hk16 hkt hmin
    have hpoll : poll_wait s r kd = { setV s r k with wait_key := none } := by
      unfold poll_wait
      rw [find?_range_least 16 kd k hk16 hkt hmin]
    have hv : ({ setV s r k with wait_key := none } : Machine) =
        { s with v := setFun s.v r k, wait_key := none } := by
      rw [setV, Nat.mod_eq_of_lt (by omega : k < 256)]
    rw [hstep, hpoll]
    show fetch_execute { setV s r k with wait_key := none } = _
    rw [hv]

/-- Claim C1 counterexample: in Waiting(5) with every key down, the single
    Step call that observes the key also fetches and executes an instruction:
    the program counter advances from 0x200 to 0x202 in that same call,
    contradicting the claim that no fetch happens until the following call. -/
theorem C1_same_call_fetch_cex :
    (step_machine mC1cex).v 5 = 0 ∧ (step_machine mC1cex).wait_key = none ∧
    (step_machine mC1cex).pc = 0x202 ∧ mC1cex.pc = 0x200 ∧ (0x202 : Nat) ≠ 0x200 := by
  refine ⟨by decide, by decide, by decide, by decide, by decide⟩

/-- Claim C1 witness: the quiet capability leaves the state unchanged, and the
    capability reporting exactly key 3 makes the same Step call write V[5] = 3,
    resume Running and fetch. -/
theorem C1_key_wait_witness :
    step_machine mC1quiet = mC1quiet ∧
    step_machine mC1key3 = fetch_execute { mC1key3 with v := setFun mC1key3.v 5 3, wait_key := none } :=
  ⟨(C1_key_wait mC1quiet 5 (fun _ => false) rfl rfl).1 (fun k _ => rfl),
   (C1_key_wait mC1key3 5 (fun k => k == 3) rfl rfl).2 3 (by omega) (by decide)
     (fun j hj => by rw [beq_eq_false_iff_ne]; omega)⟩

theorem nibble_0_wk (c : Machine) (op : Nat) : (nibble_0 c op).wait_key = c.wait_key := by
  unfold nibble_0; split_ifs <;> rfl
theorem nibble_1_wk (c : Machine) (op : Nat) : (nibble_1 c op).wait_key = c.wait_key := rfl
theorem nibble_2_wk (c : Machine) (op : Nat) : (nibble_2 c op).wait_key = c.wait_key := by
  unfold nibble_2; split <;> rfl
theorem nibble_3_wk (c : Machine) (op : Nat) : (nibble_3 c op).wait_key = c.wait_key := by
  unfold nibble_3; split <;> rfl
theorem nibble_4_wk (c : Machine) (op : Nat) : (nibble_4 c op).wait_key = c.wait_key := by
  unfold nibble_4; split <;> rfl
theorem nibble_5_wk (c : Machine) (op : Nat) : (nibble_5 c op).wait_key = c.wait_key := by
  unfold nibble_5; split <;> rfl
theorem nibble_8_wk (c : Machine) (op : Nat) : (nibble_8 c op).wait_key = c.wait_key := by
  unfold nibble_8; repeat' split
  all_goals rfl
theorem nibble_9_wk (c : Machine) (op : Nat) : (nibble_9 c op).wait_key = c.wait_key := by
  unfold nibble_9; split <;> rfl
theorem nibble_D_wk (c : Machine) (op : Nat) : (nibble_D c op).wait_key = c.wait_key :=
  nibble_D_pres Machine.wait_key (fun _ _ _ => rfl) (fun _ _ _ => rfl) c op
theorem nibble_E_wk (c : Machine) (op : Nat) : (nibble_E c op).wait_key = c.wait_key := by
  unfold nibble_E
  repeat' split
  all_goals simp [apply_ite Machine.wait_key]

/-- nibble_F changes the wait state only through its FX0A case. -/
theorem nibble_F_wk (c : Machine) (op : Nat) (h0A : opKK op ≠ 0x0A) :
    (nibble_F c op).wait_key = c.wait_key := by
  unfold nibble_F
  split
  all_goals first
    | rfl
    | exact absurd (by assumption) h0A
    | exact foldl_pres Machine.wait_key (fun c' reg => setMem c' (c'.i + reg) (c'.v reg))
        (fun c' a => rfl) _ _
    | exact foldl_pres Machine.wait_key (fun c' reg => setV c' reg (c'.mem (c'.i + reg)))
        (fun c' a => rfl) _ _

/-- Dispatching any opcode that is not FX0A leaves the wait state unchanged. -/
theorem nibbles_wk (c : Machine) (op : Nat) (hn : ¬(opP op = 15 ∧ opKK op = 0x0A)) :
    (nibbles c op).wait_key = c.wait_key := by
  unfold nibbles
  split
  · exact nibble_0_wk _ _
  · exact nibble_1_wk _ _
  · exact nibble_2_wk _ _
  · exact nibble_3_wk _ _
  · exact nibble_4_wk _ _
  · exact nibble_5_wk _ _
  · rfl
  · rfl
  · exact nibble_8_wk _ _
  · exact nibble_9_wk _ _
  · rfl
  · rfl
  · rfl
  · exact nibble_D_wk _ _
  · exact nibble_E_wk _ _
  · rename_i hP
    exact nibble_F_wk _ _ (fun h0A => hn ⟨hP, h0A⟩)
  · rfl

/-- Claim C10 (amended): with no keydown capability installed, a Step call in
    Waiting(R) skips the wait block and performs a full fetch / advance /
    execute exactly as when Running; the wait state still records Waiting(R)
    afterwards unless the executed instruction is itself FX0A. -/
theorem C10_absent_keydown (s : Machine) (r : Nat)
    (hk : s.keydown = none) (hw : s.wait_key = some r) :
    step_machine s = fetch_execute s ∧
    (¬(opP (fetch_opcode s) = 15 ∧ opKK (fetch_opcode s) = 0x0A) →
      (step_machine s).wait_key = some r) := by
  have h1 : step_machine s = fetch_execute s := by
    unfold step_machine
    rw [hw, hk]
  refine ⟨h1, fun hnot => ?_⟩
  rw [h1]
  show (nibbles { s with pc := (s.pc + 2) % 4096 } (fetch_opcode s)).wait_key = some r
  rw [nibbles_wk _ _ hnot]
  exact hw

/-- Claim C10 counterexample: with no capability and wait target 5, the
    executed instruction F00A re-records Waiting(0), so wait_state does not
    still record Waiting(5). -/
theorem C10_rewait_cex :
    mC10cex.wait_key = some 5 ∧ mC10cex.keydown = none ∧
    (step_machine mC10cex).wait_key = some 0 ∧ ((some 0 : Option Nat) ≠ some 5) := by
  refine ⟨by decide, rfl, by decide, by decide⟩

/-- Claim C10 witness: a waiting machine with no capability and an ordinary
    fetched instruction (0000). -/
theorem C10_absent_keydown_witness :
    step_machine mC10w = fetch_execute mC10w ∧
    (¬(opP (fetch_opcode mC10w) = 15 ∧ opKK (fetch_opcode mC10w) = 0x0A) →
      (step_machine mC10w).wait_key = some 2) :=
  C10_absent_keydown mC10w 2 rfl rfl

theorem nibble_0_inv (c : Machine) (op : Nat) (h : MachInv c) : MachInv (nibble_0 c op) := by
  obtain ⟨h1, h2, h3⟩ := h
  unfold nibble_0
  split_ifs
  · exact ⟨h1, h2, h3⟩
  · exact ⟨h3 _, by show c.sp - 1 ≤ 16; omega, h3⟩
  · exact ⟨h1, h2, h3⟩
  · exact ⟨h1, h2, h3⟩

theorem nibble_1_inv (c : Machine) (op : Nat) (h : MachInv c) : MachInv (nibble_1 c op) := by
  obtain ⟨h1, h2, h3⟩ := h
  exact ⟨by show op % 4096 ≤ 0xFFF; omega, h2, h3⟩

theorem nibble_2_inv (c : Machine) (op : Nat) (h : MachInv c) : MachInv (nibble_2 c op) := by
  obtain ⟨h1, h2, h3⟩ := h
  unfold nibble_2
  split
  · rename_i hsp
    refine ⟨by show op % 4096 ≤ 0xFFF; omega, by show c.sp + 1 ≤ 16; omega, fun k => ?_⟩
    show setFun c.stack c.sp c.pc k ≤ 0xFFF
    unfold setFun
    split
    · exact h1
    · exact h3 k
  · exact ⟨h1, h2, h3⟩

theorem nibble_3_inv (c : Machine) (op : Nat) (h : MachInv c) : MachInv (nibble_3 c op) := by
  obtain ⟨h1, h2, h3⟩ := h
  unfold nibble_3
  split
  · exact ⟨by show (c.pc + 2) % 4096 ≤ 0xFFF; omega, h2, h3⟩
  · exact ⟨h1, h2, h3⟩

theorem nibble_4_inv (c : Machine) (op : Nat) (h : MachInv c) : MachInv (nibble_4 c op) := by
  obtain ⟨h1, h2, h3⟩ := h
  unfold nibble_4
  split
  · exact ⟨by show (c.pc + 2) % 4096 ≤ 0xFFF; omega, h2, h3⟩
  · exact ⟨h1, h2, h3⟩

theorem nibble_5_inv (c : Machine) (op : Nat) (h : MachInv c) : MachInv (nibble_5 c op) := by
  obtain ⟨h1, h2, h3⟩ := h
  unfold nibble_5
  split
  · exact ⟨by show (c.pc + 2) % 4096 ≤ 0xFFF; omega, h2, h3⟩
  · exact ⟨h1, h2, h3⟩

theorem nibble_8_inv (c : Machine) (op : Nat) (h : MachInv c) : MachInv (nibble_8 c op) := by
  obtain ⟨h1, h2, h3⟩ := h
  unfold nibble_8
  repeat' split
  all_goals exact ⟨h1, h2, h3⟩

theorem nibble_9_inv (c : Machine) (op : Nat) (h : MachInv c) : MachInv (nibble_9 c op) := by
  obtain ⟨h1, h2, h3⟩ := h
  unfold nibble_9
  split
  · exact ⟨by show (c.pc + 2) % 4096 ≤ 0xFFF; omega, h2, h3⟩
  · exact ⟨h1, h2, h3⟩

theorem nibble_B_inv (c : Machine) (op : Nat) (h : MachInv c) : MachInv (nibble_B c op) := by
  obtain ⟨h1, h2, h3⟩ := h
  exact ⟨by show (c.v 0 + op % 4096) % 4096 ≤ 0xFFF; omega, h2, h3⟩

theorem nibble_D_inv (c : Machine) (op : Nat) (h : MachInv c) : MachInv (nibble_D c op) := by
  obtain ⟨h1, h2, h3⟩ := h
  refine ⟨?_, ?_, fun k => ?_⟩
  · rw [nibble_D_pres Machine.pc (fun _ _ _ => rfl) (fun _ _ _ => rfl)]; exact h1
  · rw [nibble_D_pres Machine.sp (fun _ _ _ => rfl) (fun _ _ _ => rfl)]; exact h2
  · rw [show (nibble_D c op).stack = c.stack from
      nibble_D_pres Machine.stack (fun _ _ _ => rfl) (fun _ _ _ => rfl) c op]
    exact h3 k

theorem nibble_E_inv (c : Machine) (op : Nat) (h : MachInv c) : MachInv (nibble_E c op) := by
  obtain ⟨h1, h2, h3⟩ := h
  unfold nibble_E
  repeat' split
  all_goals try exact ⟨h1, h2, h3⟩
  all_goals try exact ⟨by show (c.pc + 2) % 4096 ≤ 0xFFF; omega, h2, h3⟩
  all_goals simp only [apply_ite MachInv]
  all_goals split
  all_goals first
    | exact ⟨by show (c.pc + 2) % 4096 ≤ 0xFFF; omega, h2, h3⟩
    | exact ⟨h1, h2, h3⟩

theorem nibble_F_inv (c : Machine) (op : Nat) (h : MachInv c) : MachInv (nibble_F c op) := by
  obtain ⟨h1, h2, h3⟩ := h
  unfold nibble_F
  split
  all_goals try exact ⟨h1, h2, h3⟩
  · refine ⟨?_, ?_, fun k => ?_⟩
    · rw [foldl_pres Machine.pc (fun c' reg => setMem c' (c'.i + reg) (c'.v reg))
        (fun _ _ => rfl)]
      exact h1
    · rw [foldl_pres Machine.sp (fun c' reg => setMem c' (c'.i + reg) (c'.v reg))
        (fun _ _ => rfl)]
      exact h2
    · rw [show (List.foldl (fun c' reg => setMem c' (c'.i + reg) (c'.v reg)) c
          (List.range (opX op + 1))).stack = c.stack from
        foldl_pres Machine.stack (fun c' reg => setMem c' (c'.i + reg) (c'.v reg))
          (fun _ _ => rfl) _ _]
      exact h3 k
  · refine ⟨?_, ?_, fun k => ?_⟩
    · rw [foldl_pres Machine.pc (fun c' reg => setV c' reg (c'.mem (c'.i + reg)))
        (fun _ _ => rfl)]
      exact h1
    · rw [foldl_pres Machine.sp (fun c' reg => setV c' reg (c'.mem (c'.i + reg)))
        (fun _ _ => rfl)]
      exact h2
    · rw [show (List.foldl (fun c' reg => setV c' reg (c'.mem (c'.i + reg))) c
          (List.range (opX op + 1))).stack = c.stack from
        foldl_pres Machine.stack (fun c' reg => setV c' reg (c'.mem (c'.i + reg)))
          (fun _ _ => rfl) _ _]
      exact h3 k

/-- Every handler preserves the machine invariant. -/
theorem nibbles_inv (c : Machine) (op : Nat) (h : MachInv c) : MachInv (nibbles c op) := by
  unfold nibbles
  split
  · exact nibble_0_inv _ _ h
  · exact nibble_1_inv _ _ h
  · exact nibble_2_inv _ _ h
  · exact nibble_3_inv _ _ h
  · exact nibble_4_inv _ _ h
  · exact nibble_5_inv _ _ h
  · exact h
  · exact h
  · exact nibble_8_inv _ _ h
  · exact nibble_9_inv _ _ h
  · exact h
  · exact nibble_B_inv _ _ h
  · exact h
  · exact nibble_D_inv _ _ h
  · exact nibble_E_inv _ _ h
  · exact nibble_F_inv _ _ h
  · exact h

/-- A full fetch / advance / dispatch preserves the machine invariant. -/
theorem fetch_execute_inv (s : Machine) (h : MachInv s) : MachInv (fetch_execute s) := by
  obtain ⟨h1, h2, h3⟩ := h
  show MachInv (nibbles { s with pc := (s.pc + 2) % 4096 } (fetch_opcode s))
  exact nibbles_inv _ _ ⟨by show (s.pc + 2) % 4096 ≤ 0xFFF; omega, h2, h3⟩

/-- Claim C9 (amended): a Step call or a Timer-tick call started from a state
    with program counter in [0, 0xFFF], stack pointer in [0, 16] and every
    stack entry in [0, 0xFFF] ends in a state satisfying the same three
    bounds, for every opcode the Step call may execute. -/
theorem C9_invariant_preserved (s : Machine) (h : MachInv s) :
    MachInv (step_machine s) ∧ ∀ d, MachInv (update_time s d) := by
  constructor
  · rcases hw : s.wait_key with _ | r
    · rw [step_not_waiting s hw]
      exact fetch_execute_inv s h
    · rcases hk : s.keydown with _ | kd
      · have hstep : step_machine s = fetch_execute s := by
          unfold step_machine; rw [hw, hk]
        rw [hstep]
        exact fetch_execute_inv s h
      · have hstep : step_machine s =
            (match (poll_wait s r kd).wait_key with
             | some _ => poll_wait s r kd
             | none => fetch_execute (poll_wait s r kd)) := by
          unfold step_machine; rw [hw, hk]
        rw [hstep]
        rcases hf : (List.range 16).find? kd with _ | k
        · have hpoll : poll_wait s r kd = s := by unfold poll_wait; rw [hf]
          rw [hpoll, hw]
          exact h
        · have hpoll : poll_wait s r kd = { setV s r k with wait_key := none } := by
            unfold poll_wait; rw [hf]
          rw [hpoll]
          show MachInv (fetch_execute { setV s r k with wait_key := none })
          exact fetch_execute_inv _ h
  · intro d
    exact h

/-- Claim C9 counterexample: the claim's own hypotheses (pc and sp in range)
    hold at mC9cex, yet one Step executing 00EE restores the garbage stack
    entry 0x5000 into the program counter, leaving it outside [0, 0xFFF].
    The stack-entry hypothesis added by the amendment is what rules this out. -/
theorem C9_stack_entry_cex :
    mC9cex.pc ≤ 0xFFF ∧ mC9cex.sp ≤ 16 ∧
    (step_machine mC9cex).pc = 0x5000 ∧ ¬((step_machine mC9cex).pc ≤ 0xFFF) := by
  refine ⟨by decide, by decide, by decide, by decide⟩

/-- Claim C9 witness: the invariant holds after a Step and after a 1000 ms
    Timer-tick from the all-zero machine. -/
theorem C9_invariant_preserved_witness :
    MachInv (step_machine M0) ∧ MachInv (update_time M0 1000) :=
  have h := C9_invariant_preserved M0
    ⟨by decide, by decide, fun k => by show (0 : Nat) ≤ 0xFFF; decide⟩
  ⟨h.1, h.2 1000⟩

/-- Claim C5 (amended): every memory index driven by the address register —
    the DXYN sprite fetches I..I+N-1, the FX33 BCD bytes I, I+1, I+2 and the
    FX55/FX65 bulk transfers I..I+X — lies in [I, I+15], with no masking
    applied; whenever I + offset exceeds 0xFFF, so does the index. -/
theorem C5_access_bounds (s : Machine) (opcode idx : Nat)
    (hmem : idx ∈ addr_driven_accesses s opcode) :
    s.i ≤ idx ∧ idx ≤ s.i + 15 := by
  unfold addr_driven_accesses at hmem
  split_ifs at hmem with h1 h2 h3
  · simp only [List.mem_map, List.mem_range] at hmem
    obtain ⟨j, hj, rfl⟩ := hmem
    have hn : opN opcode < 16 := Nat.mod_lt _ (by omega)
    exact ⟨by omega, by omega⟩
  · simp only [List.mem_cons, List.not_mem_nil, or_false] at hmem
    rcases hmem with rfl | rfl | rfl
    · exact ⟨by omega, by omega⟩
    · exact ⟨by omega, by omega⟩
    · exact ⟨by omega, by omega⟩
  · simp only [List.mem_map, List.mem_range] at hmem
    obtain ⟨reg, hreg, rfl⟩ := hmem
    have hx : opX opcode < 16 := Nat.mod_lt _ (by omega)
    exact ⟨by omega, by omega⟩
  · simp at hmem

/-- Claim C5 counterexample: from a reachable state (one Step after booting
    the program AFFF F533) the address register is 0xFFF and the next fetched
    instruction is the BCD store F533, whose computed index I + 2 = 0x1001
    does not reference one of the 4096 memory bytes. -/
theorem C5_out_of_memory_cex :
    Reachable mC5s ∧ fetch_opcode mC5s = 0xF533 ∧
    0x1001 ∈ addr_driven_accesses mC5s 0xF533 ∧ ¬((0x1001 : Nat) ≤ 0xFFF) := by
  refine ⟨?_, by decide, by decide, by decide⟩
  exact Reachable.step _ (Reachable.boot romC5 (fun _ => false) (fun _ => 0) (by decide))

/-- Claim C5 witness: the BCD store from I = 0x100 accesses index 0x102,
    inside [I, I+15]. -/
theorem C5_access_bounds_witness :
    mC5w.i ≤ 0x102 ∧ (0x102 : Nat) ≤ mC5w.i + 15 :=
  C5_access_bounds mC5w 0xF533 0x102 (by decide)

theorem setFun_setFun (f : Nat → Nat) (k a b : Nat) : setFun (setFun f k a) k b = setFun f k b := by
  funext q
  unfold setFun
  by_cases h : q = k <;> simp [h]

theorem or01_le (a b : Nat) (ha : a ≤ 1) (hb : b ≤ 1) : a ||| b ≤ 1 := by
  rcases Nat.le_one_iff_eq_zero_or_eq_one.mp ha with rfl | rfl <;>
    rcases Nat.le_one_iff_eq_zero_or_eq_one.mp hb with rfl | rfl <;> decide

theorem or01_zero_iff (a b : Nat) (ha : a ≤ 1) (hb : b ≤ 1) :
    ((a ||| b) % 256 = 0 ↔ a = 0 ∧ b = 0) := by
  rcases Nat.le_one_iff_eq_zero_or_eq_one.mp ha with rfl | rfl <;>
    rcases Nat.le_one_iff_eq_zero_or_eq_one.mp hb with rfl | rfl <;> simp

theorem xor_byte_lt (a b : Nat) (ha : a < 256) (hb : b ≤ 1) : a ^^^ b < 256 := by
  have h1 : a < 2 ^ 8 := by norm_num; omega
  have h2 : b < 2 ^ 8 := by norm_num; omega
  have := Nat.xor_lt_two_pow h1 h2
  norm_num at this
  exact this

theorem xor_cancel_mod (a b : Nat) (ha : a < 256) (hb : b ≤ 1) :
    ((a ^^^ b) % 256 ^^^ b) % 256 = a := by
  rw [Nat.mod_eq_of_lt (xor_byte_lt a b ha hb), Nat.xor_assoc, Nat.xor_self, Nat.xor_zero,
    Nat.mod_eq_of_lt ha]

theorem and_one_flip (a : Nat) (h : a &&& 1 = 0) : (a ^^^ 1) &&& 1 = 1 := by
  rw [Nat.and_xor_distrib_right, h]
  decide

theorem spritePixel_le_one (s ib : Nat) : spritePixel s ib ≤ 1 := by
  unfold spritePixel
  split <;> omega

theorem drawAbs_append (l1 l2 : List (Nat × Nat)) (sf : (Nat → Nat) × Nat) :
    drawAbs (l1 ++ l2) sf = drawAbs l2 (drawAbs l1 sf) := by
  unfold drawAbs
  exact List.foldl_append _ _ _ _

theorem drawAbs_fst_flag (l : List (Nat × Nat)) :
    ∀ (s : Nat → Nat) (f g : Nat), (drawAbs l (s, f)).1 = (drawAbs l (s, g)).1 := by
  induction l with
  | nil => intro s f g; rfl
  | cons p t ih =>
    intro s f g
    show (drawAbs t (drawStep (s, f) p)).1 = (drawAbs t (drawStep (s, g) p)).1
    unfold drawStep
    exact ih _ _ _

theorem drawAbs_fst_notmem (l : List (Nat × Nat)) :
    ∀ (s : Nat → Nat) (f p : Nat), p ∉ l.map Prod.fst → (drawAbs l (s, f)).1 p = s p := by
  induction l with
  | nil => intro s f p _; rfl
  | cons q t ih =>
    intro s f p hp
    simp only [List.map_cons, List.mem_cons, not_or] at hp
    show (drawAbs t (drawStep (s, f) q)).1 p = s p
    unfold drawStep
    rw [ih _ _ _ hp.2, setFun_ne _ _ _ _ hp.1]

theorem drawAbs_fst_mem (l : List (Nat × Nat)) :
    ∀ (s : Nat → Nat) (f p x : Nat), (l.map Prod.fst).Nodup → (p, x) ∈ l →
      (drawAbs l (s, f)).1 p = (s p ^^^ x) % 256 := by
  induction l with
  | nil => intro s f p x _ hm; exact absurd hm (List.not_mem_nil _)
  | cons q t ih =>
    intro s f p x hnd hm
    simp only [List.map_cons, List.nodup_cons] at hnd
    show (drawAbs t (drawStep (s, f) q)).1 p = (s p ^^^ x) % 256
    rcases List.mem_cons.mp hm with heq | hmt
    · rw [← heq] at hnd ⊢
      unfold drawStep
      rw [drawAbs_fst_notmem t _ _ _ hnd.1, setFun_self]
    · have hpt : p ∈ t.map Prod.fst := List.mem_map.mpr ⟨(p, x), hmt, rfl⟩
      have hpq : p ≠ q.1 := fun h => hnd.1 (h ▸ hpt)
      unfold drawStep
      rw [ih _ _ _ _ hnd.2 hmt, setFun_ne _ _ _ _ hpq]

theorem drawAbs_fst_lt (l : List (Nat × Nat)) :
    ∀ (s : Nat → Nat) (f : Nat), (∀ q, s q < 256) → ∀ q, (drawAbs l (s, f)).1 q < 256 := by
  induction l with
  | nil => intro s f hs q; exact hs q
  | cons p t ih =>
    intro s f hs q
    show (drawAbs t (drawStep (s, f) p)).1 q < 256
    unfold drawStep
    apply ih
    intro q'
    unfold setFun
    split
    · exact Nat.mod_lt _ (by omega)
    · exact hs q'

theorem drawAbs_fst_congr (l : List (Nat × Nat)) :
    ∀ (s s' : Nat → Nat) (f f' : Nat), (∀ pos, pos ∈ l.map Prod.fst → s pos = s' pos) →
      ∀ q, s q = s' q → (drawAbs l (s, f)).1 q = (drawAbs l (s', f')).1 q := by
  induction l with
  | nil => intro s s' f f' _ q hq; exact hq
  | cons p t ih =>
    intro s s' f f' hagr q hq
    show (drawAbs t (drawStep (s, f) p)).1 q = (drawAbs t (drawStep (s', f') p)).1 q
    unfold drawStep
    have hp1 : s p.1 = s' p.1 := hagr p.1 (by simp)
    apply ih
    · intro pos hpos
      unfold setFun
      split
      · show (s p.1 ^^^ p.2) % 256 = (s' p.1 ^^^ p.2) % 256
        rw [hp1]
      · exact hagr pos (by simp [hpos])
    · unfold setFun
      split
      · show (s p.1 ^^^ p.2) % 256 = (s' p.1 ^^^ p.2) % 256
        rw [hp1]
      · exact hq

theorem drawAbs_restore (l : List (Nat × Nat)) :
    ∀ (s : Nat → Nat) (f1 f2 : Nat), (l.map Prod.fst).Nodup → (∀ pp ∈ l, pp.2 ≤ 1) →
      (∀ q, s q < 256) → ∀ q, (drawAbs l ((drawAbs l (s, f1)).1, f2)).1 q = s q := by
  induction l with
  | nil => intro s f1 f2 _ _ _ q; rfl
  | cons p t ih =>
    intro s f1 f2 hnd hpix hs q
    simp only [List.map_cons, List.nodup_cons] at hnd
    have hp2 : p.2 ≤ 1 := hpix p (by simp)
    have hpixt : ∀ pp ∈ t, pp.2 ≤ 1 := fun pp hpp => hpix pp (by simp [hpp])
    show (drawAbs t (drawStep ((drawAbs (p :: t) (s, f1)).1, f2) p)).1 q = s q
    have hscr1 : (drawAbs (p :: t) (s, f1)).1 p.1 = (s p.1 ^^^ p.2) % 256 := by
      show (drawAbs t (drawStep (s, f1) p)).1 p.1 = _
      unfold drawStep
      rw [drawAbs_fst_notmem t _ _ _ hnd.1, setFun_self]
    unfold drawStep
    rw [hscr1, xor_cancel_mod _ _ (hs p.1) hp2]
    by_cases hqp : q = p.1
    · subst hqp
      rw [drawAbs_fst_notmem t _ _ _ hnd.1, setFun_self]
    · have hAgr : ∀ pos, pos ∈ t.map Prod.fst →
          setFun (drawAbs (p :: t) (s, f1)).1 p.1 (s p.1) pos = (drawAbs (p :: t) (s, f1)).1 pos := by
        intro pos hpos
        have : pos ≠ p.1 := fun h => hnd.1 (h ▸ hpos)
        rw [setFun_ne _ _ _ _ this]
      have h2 : ∀ g g', (drawAbs t (setFun (drawAbs (p :: t) (s, f1)).1 p.1 (s p.1), g)).1 q =
          (drawAbs t ((drawAbs (p :: t) (s, f1)).1, g')).1 q := fun g g' =>
        drawAbs_fst_congr t _ _ g g' hAgr q (by rw [setFun_ne _ _ _ _ hqp])
      rw [h2 _ 0]
      have hsA : ∀ q', (drawStep (s, f1) p).1 q' < 256 := by
        intro q'
        show setFun s p.1 ((s p.1 ^^^ p.2) % 256) q' < 256
        unfold setFun
        split
        · exact Nat.mod_lt _ (by omega)
        · exact hs q'
      have hIH := ih (drawStep (s, f1) p).1 (drawStep (s, f1) p).2 0 hnd.2 hpixt hsA q
      have hAq : (drawStep (s, f1) p).1 q = s q := by
        show setFun s p.1 ((s p.1 ^^^ p.2) % 256) q = s q
        rw [setFun_ne _ _ _ _ hqp]
      exact hIH.trans hAq

theorem drawAbs_snd_le (l : List (Nat × Nat)) :
    ∀ (s : Nat → Nat) (f : Nat), f ≤ 1 → (∀ pp ∈ l, pp.2 ≤ 1) → (drawAbs l (s, f)).2 ≤ 1 := by
  induction l with
  | nil => intro s f hf _; exact hf
  | cons p t ih =>
    intro s f hf hpix
    show (drawAbs t (drawStep (s, f) p)).2 ≤ 1
    unfold drawStep
    apply ih
    · show (f ||| (s p.1 &&& p.2)) % 256 ≤ 1
      have hand : s p.1 &&& p.2 ≤ 1 := le_trans Nat.and_le_right (hpix p (by simp))
      have := or01_le f (s p.1 &&& p.2) hf hand
      omega
    · exact fun pp hpp => hpix pp (by simp [hpp])

theorem drawAbs_snd_zero_iff (l : List (Nat × Nat)) :
    ∀ (s : Nat → Nat) (f : Nat), (l.map Prod.fst).Nodup → f ≤ 1 → (∀ pp ∈ l, pp.2 ≤ 1) →
      ((drawAbs l (s, f)).2 = 0 ↔ (f = 0 ∧ ∀ pp ∈ l, s pp.1 &&& pp.2 = 0)) := by
  induction l with
  | nil =>
    intro s f _ _ _
    simp [drawAbs]
  | cons p t ih =>
    intro s f hnd hf hpix
    simp only [List.map_cons, List.nodup_cons] at hnd
    have hp2 : p.2 ≤ 1 := hpix p (by simp)
    have hand : s p.1 &&& p.2 ≤ 1 := le_trans Nat.and_le_right hp2
    have hF1 : (f ||| (s p.1 &&& p.2)) % 256 ≤ 1 := by
      have := or01_le f (s p.1 &&& p.2) hf hand
      omega
    show ((drawAbs t (drawStep (s, f) p)).2 = 0 ↔ _)
    unfold drawStep
    rw [ih _ _ hnd.2 hF1 (fun pp hpp => hpix pp (by simp [hpp]))]
    rw [or01_zero_iff f (s p.1 &&& p.2) hf hand]
    constructor
    · rintro ⟨⟨hf0, hp0⟩, hrest⟩
      refine ⟨hf0, ?_⟩
      intro pp hpp
      rcases List.mem_cons.mp hpp with heq | hmt
      · rw [heq]; exact hp0
      · have hne : pp.1 ≠ p.1 := by
          intro h
          exact hnd.1 (h ▸ List.mem_map.mpr ⟨pp, hmt, rfl⟩)
        have := hrest pp hmt
        rwa [setFun_ne _ _ _ _ hne] at this
    · rintro ⟨hf0, hall⟩
      refine ⟨⟨hf0, hall p (by simp)⟩, ?_⟩
      intro pp hpp
      have hne : pp.1 ≠ p.1 := by
        intro h
        exact hnd.1 (h ▸ List.mem_map.mpr ⟨pp, hpp, rfl⟩)
      rw [setFun_ne _ _ _ _ hne]
      exact hall pp (by simp [hpp])

/-- Cancellation of addition under a modulus, for the draw coordinates. -/
theorem add_mod_inj (m a b1 b2 : Nat) (hm : 0 < m) (h1 : b1 < m) (h2 : b2 < m)
    (he : (a + b1) % m = (a + b2) % m) : b1 = b2 := by
  have hmod : b1 ≡ b2 [MOD m] := Nat.ModEq.add_left_cancel' a he
  have := hmod
  unfold Nat.ModEq at this
  rwa [Nat.mod_eq_of_lt h1, Nat.mod_eq_of_lt h2] at this

theorem rowPix_pos_nodup (vx vy i0 : Nat) (mem : Nat → Nat) (j : Nat) :
    ((rowPix vx vy i0 mem j).map Prod.fst).Nodup := by
  unfold rowPix
  rw [List.map_map]
  apply List.Nodup.map_on
  · intro a ha b hb hab
    simp only [List.mem_range] at ha hb
    simp only [Function.comp] at hab
    have hlt1 : (vx + a) % 64 < 64 := Nat.mod_lt _ (by omega)
    have hlt2 : (vx + b) % 64 < 64 := Nat.mod_lt _ (by omega)
    have hpx : (vx + a) % 64 = (vx + b) % 64 := by omega
    exact add_mod_inj 64 vx a b (by omega) (by omega) (by omega) hpx
  · exact List.nodup_range 8

theorem rowPix_pos_mem (vx vy i0 : Nat) (mem : Nat → Nat) (j pos : Nat) :
    pos ∈ (rowPix vx vy i0 mem j).map Prod.fst ↔
      ∃ ib, ib < 8 ∧ pos = 64 * ((vy + j) % 32) + ((vx + ib) % 64) := by
  unfold rowPix
  rw [List.map_map]
  simp only [List.mem_map, List.mem_range, Function.comp]
  constructor
  · rintro ⟨ib, hib, rfl⟩
    exact ⟨ib, hib, rfl⟩
  · rintro ⟨ib, hib, rfl⟩
    exact ⟨ib, hib, rfl⟩

theorem pixList_pos_mem (vx vy i0 : Nat) (mem : Nat → Nat) :
    ∀ (n : Nat) (pos : Nat), pos ∈ (pixList vx vy i0 mem n).map Prod.fst ↔
      ∃ j, j < n ∧ ∃ ib, ib < 8 ∧ pos = 64 * ((vy + j) % 32) + ((vx + ib) % 64) := by
  intro n
  induction n with
  | zero =>
    intro pos
    simp [pixList]
  | succ n ih =>
    intro pos
    show pos ∈ (pixList vx vy i0 mem n ++ rowPix vx vy i0 mem n).map Prod.fst ↔ _
    rw [List.map_append, List.mem_append, ih, rowPix_pos_mem]
    constructor
    · rintro (⟨j, hj, hrest⟩ | ⟨ib, hib, rfl⟩)
      · exact ⟨j, by omega, hrest⟩
      · exact ⟨n, by omega, ib, hib, rfl⟩
    · rintro ⟨j, hj, ib, hib, rfl⟩
      rcases Nat.lt_or_ge j n with h | h
      · exact Or.inl ⟨j, h, ib, hib, rfl⟩
      · have : j = n := by omega
        subst this
        exact Or.inr ⟨ib, hib, rfl⟩

theorem pixList_pos_nodup (vx vy i0 : Nat) (mem : Nat → Nat) :
    ∀ n, n ≤ 32 → ((pixList vx vy i0 mem n).map Prod.fst).Nodup := by
  intro n
  induction n with
  | zero => intro _; simp [pixList]
  | succ n ih =>
    intro hn
    show ((pixList vx vy i0 mem n ++ rowPix vx vy i0 mem n).map Prod.fst).Nodup
    rw [List.map_append, List.nodup_append]
    refine ⟨ih (by omega), rowPix_pos_nodup vx vy i0 mem n, ?_⟩
    intro pos hpre hrow
    obtain ⟨j, hj, ib, hib, rfl⟩ := (pixList_pos_mem vx vy i0 mem n pos).mp hpre
    obtain ⟨ib', hib', heq⟩ := (rowPix_pos_mem vx vy i0 mem n _).mp hrow
    have hpx1 : (vx + ib) % 64 < 64 := Nat.mod_lt _ (by omega)
    have hpx2 : (vx + ib') % 64 < 64 := Nat.mod_lt _ (by omega)
    have hpy : (vy + j) % 32 = (vy + n) % 32 := by omega
    have hj32 : j < 32 := by omega
    have hn32 : n < 32 := by omega
    have : j = n := add_mod_inj 32 vy j n (by omega) hj32 hn32 hpy
    omega

theorem pixList_snd_le (vx vy i0 : Nat) (mem : Nat → Nat) :
    ∀ (n : Nat), ∀ pp ∈ pixList vx vy i0 mem n, pp.2 ≤ 1 := by
  intro n
  induction n with
  | zero => intro pp hpp; simp [pixList] at hpp
  | succ n ih =>
    intro pp hpp
    rcases List.mem_append.mp hpp with h | h
    · exact ih pp h
    · unfold rowPix at h
      obtain ⟨ib, _, rfl⟩ := List.mem_map.mp h
      exact spritePixel_le_one _ _

theorem pixList_mem_iff (vx vy i0 : Nat) (mem : Nat → Nat) :
    ∀ (n : Nat) (pp : Nat × Nat), pp ∈ pixList vx vy i0 mem n ↔
      ∃ j, j < n ∧ ∃ ib, ib < 8 ∧
        pp = (64 * ((vy + j) % 32) + ((vx + ib) % 64), spritePixel (mem (i0 + j)) ib) := by
  intro n
  induction n with
  | zero => intro pp; simp [pixList]
  | succ n ih =>
    intro pp
    show pp ∈ pixList vx vy i0 mem n ++ rowPix vx vy i0 mem n ↔ _
    rw [List.mem_append, ih]
    unfold rowPix
    simp only [List.mem_map, List.mem_range]
    constructor
    · rintro (⟨j, hj, hrest⟩ | ⟨ib, hib, rfl⟩)
      · exact ⟨j, by omega, hrest⟩
      · exact ⟨n, by omega, ib, hib, rfl⟩
    · rintro ⟨j, hj, ib, hib, rfl⟩
      rcases Nat.lt_or_ge j n with h | h
      · exact Or.inl ⟨j, h, ib, hib, rfl⟩
      · have : j = n := by omega
        subst this
        exact Or.inr ⟨ib, hib, rfl⟩

theorem drawBit_abs (cpu : Machine) (x y : Nat) (hx : x ≠ 15) (hy : y ≠ 15)
    (j spr ib : Nat) (S : Nat → Nat) (F : Nat) :
    drawBit x y j spr { cpu with v := setFun cpu.v 15 F, screen := S } ib =
      { cpu with
        v := setFun cpu.v 15 (drawStep (S, F)
          (64 * ((cpu.v y + j) % 32) + ((cpu.v x + ib) % 64), spritePixel spr ib)).2,
        screen := (drawStep (S, F)
          (64 * ((cpu.v y + j) % 32) + ((cpu.v x + ib) % 64), spritePixel spr ib)).1 } := by
  unfold drawBit drawStep setV setScreen
  simp only [setFun_setFun, setFun_self, setFun_ne _ _ _ _ hx, setFun_ne _ _ _ _ hy]

theorem drawBits_abs (cpu : Machine) (x y : Nat) (hx : x ≠ 15) (hy : y ≠ 15) (j spr : Nat) :
    ∀ (k : Nat) (S : Nat → Nat) (F : Nat),
      (List.range k).foldl (drawBit x y j spr) { cpu with v := setFun cpu.v 15 F, screen := S } =
        { cpu with
          v := setFun cpu.v 15 (drawAbs ((List.range k).map (fun ib =>
            (64 * ((cpu.v y + j) % 32) + ((cpu.v x + ib) % 64), spritePixel spr ib))) (S, F)).2,
          screen := (drawAbs ((List.range k).map (fun ib =>
            (64 * ((cpu.v y + j) % 32) + ((cpu.v x + ib) % 64), spritePixel spr ib))) (S, F)).1 } := by
  intro k
  induction k with
  | zero => intro S F; rfl
  | succ k ih =>
    intro S F
    rw [List.range_succ, List.foldl_append, ih S F, List.map_append, drawAbs_append]
    simp only [List.foldl_cons, List.foldl_nil, List.map_cons, List.map_nil]
    rw [drawBit_abs cpu x y hx hy j spr k]
    rfl

theorem drawRow_abs (cpu : Machine) (x y : Nat) (hx : x ≠ 15) (hy : y ≠ 15)
    (S : Nat → Nat) (F j : Nat) :
    drawRow x y { cpu with v := setFun cpu.v 15 F, screen := S } j =
      { cpu with
        v := setFun cpu.v 15 (drawAbs (rowPix (cpu.v x) (cpu.v y) cpu.i cpu.mem j) (S, F)).2,
        screen := (drawAbs (rowPix (cpu.v x) (cpu.v y) cpu.i cpu.mem j) (S, F)).1 } := by
  unfold drawRow
  exact drawBits_abs cpu x y hx hy j (cpu.mem (cpu.i + j)) 8 S F

theorem drawRows_abs (cpu : Machine) (x y : Nat) (hx : x ≠ 15) (hy : y ≠ 15) :
    ∀ (n : Nat) (S : Nat → Nat) (F : Nat),
      (List.range n).foldl (drawRow x y) { cpu with v := setFun cpu.v 15 F, screen := S } =
        { cpu with
          v := setFun cpu.v 15 (drawAbs (pixList (cpu.v x) (cpu.v y) cpu.i cpu.mem n) (S, F)).2,
          screen := (drawAbs (pixList (cpu.v x) (cpu.v y) cpu.i cpu.mem n) (S, F)).1 } := by
  intro n
  induction n with
  | zero => intro S F; rfl
  | succ n ih =>
    intro S F
    rw [List.range_succ, List.foldl_append, ih S F]
    simp only [List.foldl_cons, List.foldl_nil]
    rw [drawRow_abs cpu x y hx hy]
    rw [show pixList (cpu.v x) (cpu.v y) cpu.i cpu.mem (n + 1) =
      pixList (cpu.v x) (cpu.v y) cpu.i cpu.mem n ++ rowPix (cpu.v x) (cpu.v y) cpu.i cpu.mem n
      from rfl]
    rw [drawAbs_append]

theorem nibble_D_abs (cpu : Machine) (op : Nat) (hx : opX op ≠ 15) (hy : opY op ≠ 15) :
    nibble_D cpu op =
      { cpu with
        v := setFun cpu.v 15 (drawAbs (pixList (cpu.v (opX op)) (cpu.v (opY op)) cpu.i cpu.mem
          (opN op)) (cpu.screen, 0)).2,
        screen := (drawAbs (pixList (cpu.v (opX op)) (cpu.v (opY op)) cpu.i cpu.mem
          (opN op)) (cpu.screen, 0)).1 } := by
  show (List.range (opN op)).foldl (drawRow (opX op) (opY op)) (setV cpu 15 0) = _
  have h0 : setV cpu 15 0 = { cpu with v := setFun cpu.v 15 0, screen := cpu.screen } := rfl
  rw [h0, drawRows_abs cpu (opX op) (opY op) hx hy (opN op) cpu.screen 0]

/-- Claim C8 (amended): for a DXYN opcode whose coordinate registers X and Y
    are both different from the flag register 0xF, and a byte-valued
    framebuffer, drawing the same sprite twice in succession with unchanged
    sprite memory restores the framebuffer to its content before the first
    draw; and when the first draw reports no collision, the second draw
    reports a collision exactly when some sprite bit among the N rows is set
    (erasing a pixel counts as a collision), so it reports no collision only
    for blank sprites. -/
theorem C8_double_draw (s : Machine) (op : Nat)
    (hp : opP op = 13) (hx : opX op ≠ 15) (hy : opY op ≠ 15)
    (hscr : ∀ p, s.screen p < 256) :
    (∀ p, (nibbles (nibbles s op) op).screen p = s.screen p) ∧
    ((nibbles s op).v 15 = 0 →
      ((nibbles (nibbles s op) op).v 15 = 1 ↔
        ∃ j, j < opN op ∧ ∃ ib, ib < 8 ∧ spritePixel (s.mem (s.i + j)) ib = 1)) := by
  rw [nibbles_eq_D s op hp, nibble_D_abs s op hx hy]
  rw [nibbles_eq_D _ _ hp, nibble_D_abs _ op hx hy]
  simp only [setFun_setFun, setFun_ne _ _ _ _ hx, setFun_ne _ _ _ _ hy, setFun_self]
  have hlt : opN op < 16 := Nat.mod_lt _ (by omega)
  have hnd : ((pixList (s.v (opX op)) (s.v (opY op)) s.i s.mem (opN op)).map Prod.fst).Nodup :=
    pixList_pos_nodup _ _ _ _ _ (by omega)
  have hpix : ∀ pp ∈ pixList (s.v (opX op)) (s.v (opY op)) s.i s.mem (opN op), pp.2 ≤ 1 :=
    pixList_snd_le _ _ _ _ _
  constructor
  · intro p
    exact drawAbs_restore _ s.screen 0 0 hnd hpix hscr p
  · intro h1
    have hall : ∀ pp ∈ pixList (s.v (opX op)) (s.v (opY op)) s.i s.mem (opN op),
        s.screen pp.1 &&& pp.2 = 0 :=
      ((drawAbs_snd_zero_iff _ s.screen 0 hnd (by omega) hpix).mp h1).2
    have hB_le : (drawAbs (pixList (s.v (opX op)) (s.v (opY op)) s.i s.mem (opN op))
        ((drawAbs (pixList (s.v (opX op)) (s.v (opY op)) s.i s.mem (opN op)) (s.screen, 0)).1,
          0)).2 ≤ 1 :=
      drawAbs_snd_le _ _ 0 (by omega) hpix
    have hB_zero_iff := drawAbs_snd_zero_iff
      (pixList (s.v (opX op)) (s.v (opY op)) s.i s.mem (opN op))
      ((drawAbs (pixList (s.v (opX op)) (s.v (opY op)) s.i s.mem (opN op)) (s.screen, 0)).1)
      0 hnd (by omega) hpix
    have hterm : ∀ pp ∈ pixList (s.v (opX op)) (s.v (opY op)) s.i s.mem (opN op),
        ((drawAbs (pixList (s.v (opX op)) (s.v (opY op)) s.i s.mem (opN op))
          (s.screen, 0)).1 pp.1 &&& pp.2 = 0 ↔ pp.2 = 0) := by
      intro pp hpp
      have hmem : (drawAbs (pixList (s.v (opX op)) (s.v (opY op)) s.i s.mem (opN op))
          (s.screen, 0)).1 pp.1 = (s.screen pp.1 ^^^ pp.2) % 256 :=
        drawAbs_fst_mem _ s.screen 0 pp.1 pp.2 hnd hpp
      have hp2 : pp.2 ≤ 1 := hpix pp hpp
      have hz := hall pp hpp
      rcases Nat.le_one_iff_eq_zero_or_eq_one.mp hp2 with h0 | h1'
      · rw [h0]
        simp
      · rw [h1'] at hz hmem ⊢
        rw [hmem, Nat.mod_eq_of_lt (xor_byte_lt _ _ (hscr pp.1) (by omega))]
        have hflip := and_one_flip (s.screen pp.1) hz
        constructor
        · intro hc; omega
        · intro hc; omega
    constructor
    · intro hB1
      have hBnz : ¬((drawAbs (pixList (s.v (opX op)) (s.v (opY op)) s.i s.mem (opN op))
          ((drawAbs (pixList (s.v (opX op)) (s.v (opY op)) s.i s.mem (opN op))
            (s.screen, 0)).1, 0)).2 = 0) := by omega
      rw [hB_zero_iff] at hBnz
      push_neg at hBnz
      obtain ⟨pp, hpp, hne⟩ := hBnz rfl
      have hp2ne : pp.2 ≠ 0 := fun h0 => hne ((hterm pp hpp).mpr h0)
      have hp2le : pp.2 ≤ 1 := hpix pp hpp
      have hp21 : pp.2 = 1 := by omega
      obtain ⟨j, hj, ib, hib, hpp_eq⟩ := (pixList_mem_iff _ _ _ _ (opN op) pp).mp hpp
      have hsp : pp.2 = spritePixel (s.mem (s.i + j)) ib := congrArg Prod.snd hpp_eq
      exact ⟨j, hj, ib, hib, by omega⟩
    · rintro ⟨j, hj, ib, hib, hsp⟩
      have hppmem : (64 * ((s.v (opY op) + j) % 32) + ((s.v (opX op) + ib) % 64),
          spritePixel (s.mem (s.i + j)) ib) ∈
          pixList (s.v (opX op)) (s.v (opY op)) s.i s.mem (opN op) :=
        (pixList_mem_iff _ _ _ _ (opN op) _).mpr ⟨j, hj, ib, hib, rfl⟩
      have hBnz : ¬((drawAbs (pixList (s.v (opX op)) (s.v (opY op)) s.i s.mem (opN op))
          ((drawAbs (pixList (s.v (opX op)) (s.v (opY op)) s.i s.mem (opN op))
            (s.screen, 0)).1, 0)).2 = 0) := by
        rw [hB_zero_iff]
        rintro ⟨_, hforall⟩
        have hzero : spritePixel (s.mem (s.i + j)) ib = 0 :=
          (hterm _ hppmem).mp (hforall _ hppmem)
        omega
      omega

/-- Claim C8 counterexample: a one-row sprite 0x80 drawn twice at (0,0) on a
    clear screen (opcode D011, state mC8a): the first draw reports no
    collision but the second reports one, refuting the no-collision part; and
    with X = 0xF (opcode DF02, state mC8b) the flag write shifts the
    coordinates mid-draw, so the double draw leaves screen cell 64 set even
    though it started clear, refuting the restore part. -/
theorem C8_double_draw_cex :
    (nibbles mC8a 0xD011).v 15 = 0 ∧
    (nibbles (nibbles mC8a 0xD011) 0xD011).v 15 = 1 ∧ ((1 : Nat) ≠ 0) ∧
    (nibbles (nibbles mC8b 0xDF02) 0xDF02).screen 64 = 1 ∧ mC8b.screen 64 = 0 := by
  refine ⟨by decide, by decide, by decide, by decide, by decide⟩

/-- Claim C8 witness: the amended theorem applied to the concrete draw of a
    one-row sprite 0x80 at (0,0) on a clear screen. -/
theorem C8_double_draw_witness :
    (∀ p, (nibbles (nibbles mC8a 0xD011) 0xD011).screen p = mC8a.screen p) ∧
    ((nibbles mC8a 0xD011).v 15 = 0 →
      ((nibbles (nibbles mC8a 0xD011) 0xD011).v 15 = 1 ↔
        ∃ j, j < opN 0xD011 ∧ ∃ ib, ib < 8 ∧ spritePixel (mC8a.mem (mC8a.i + j)) ib = 1)) :=
  C8_double_draw mC8a 0xD011 (by decide) (by decide) (by decide)
    (fun p => by show (0 : Nat) < 256; decide)
